import Mathlib

/-!
Verification of the kratos-mcp retrieval/ranking core against its design
specification.

The development shallowly embeds the three components the specification
calls the Storage Engine (`src/memory-server/database.ts`, class
`MemoryDatabase`), the Concept Graph Store (`src/memory-server/concept-store`
classes `ConceptStoreEnhanced` and `ConceptStore`, plus the `concept_search`
dispatch case of `src/index.ts`), and the Context Assembler
(`src/memory-server/context-broker.ts`, class `ContextBroker`).

Modelling conventions:
* JavaScript strings are Lean `String`s; all character-level operations are
  carried out on `String.data` (`List Char`) so that concrete instances can
  be evaluated by the kernel.  Only the ASCII behaviour of `toLowerCase`,
  `\w` and `\s` is modelled, matching the ASCII-only semantics of the
  JavaScript regexes used by the source.
* JavaScript numbers used in scoring are modelled as rationals (`ℚ`);
  byte counts and timestamps are `ℕ`.
* SQLite tables are lists of row structures in rowid (insertion) order;
  `INSERT OR REPLACE` removes the conflicting row and appends, as SQLite
  does.  Full-text matching and bm25 relevance are abstracted as explicit
  function parameters (`ftsMatch`, `bm25`): the cascade and ranking logic
  under verification is independent of the tokenizer.
* Exceptions thrown by a query execution are modelled by `Option`: a
  `none` result of an executor stands for a thrown exception, matching the
  `try`/`catch` structure of the source.
* `crypto.createHash('md5')` is modelled as the identity on its normalized
  pre-image (an injective, collision-free idealization): the fingerprint of
  a record is the string `normalizedSummary ++ "|" ++ sortedPathsJoined`.
* `Date.now()` and the random components of generated ids are passed in as
  explicit parameters (`now`, fresh-id arguments).
-/

/-! ## Character and string helpers (ASCII semantics of the JS regexes) -/

/-- ASCII `toLowerCase` of one character, as in JS for the ASCII range. -/
def lowerChar (c : Char) : Char :=
  if 65 ≤ c.toNat ∧ c.toNat ≤ 90 then Char.ofNat (c.toNat + 32) else c

/-- ASCII lowercase of a string (`String.prototype.toLowerCase`, ASCII part). -/
def jsToLower (s : String) : String := String.mk (s.data.map lowerChar)

/-- Membership in the JS regex class `\w` = `[A-Za-z0-9_]`. -/
def wordCharB (c : Char) : Bool :=
  (48 ≤ c.toNat && c.toNat ≤ 57) || (65 ≤ c.toNat && c.toNat ≤ 90) ||
  (97 ≤ c.toNat && c.toNat ≤ 122) || c = '_'

/-- Membership in the JS regex class `\s` (ASCII part:
space, tab, LF, VT, FF, CR). -/
def spaceCharB (c : Char) : Bool :=
  c.toNat = 32 || c.toNat = 9 || c.toNat = 10 || c.toNat = 11 ||
  c.toNat = 12 || c.toNat = 13

/-- `String.prototype.trim`: drop `\s` characters from both ends. -/
def jsTrim (s : String) : String :=
  String.mk (((s.data.dropWhile spaceCharB).reverse.dropWhile spaceCharB).reverse)

/-- One step of `replace(/\s+/g, ' ')`: each maximal run of `\s` characters
becomes a single space.  The boolean records whether the previous character
belonged to a run. -/
def collapseWsAux : Bool → List Char → List Char
  | _, [] => []
  | prevWs, c :: rest =>
    if spaceCharB c then
      (if prevWs then [] else [' ']) ++ collapseWsAux true rest
    else c :: collapseWsAux false rest

/-- `replace(/\s+/g, ' ')` on a string. -/
def collapseWs (s : String) : String := String.mk (collapseWsAux false s.data)

/-- `s.split(/\s/)` at the character level: cut at every `\s` character
(empty pieces between adjacent separators are produced, as in JS). -/
def splitWsAux (acc : List Char) : List Char → List (List Char)
  | [] => [acc.reverse]
  | c :: rest =>
    if spaceCharB c then acc.reverse :: splitWsAux [] rest
    else splitWsAux (c :: acc) rest

/-- Pieces of a string between whitespace characters. -/
def splitWs (s : String) : List String :=
  (splitWsAux [] s.data).map String.mk

/-- Lexicographic comparison by code points — the default
`Array.prototype.sort()` string order for the basic plane. -/
def strLeB : List Char → List Char → Bool
  | [], _ => true
  | _ :: _, [] => false
  | c :: cs, d :: ds =>
    if c.toNat < d.toNat then true
    else if d.toNat < c.toNat then false
    else strLeB cs ds

/-- `needle` occurs as a contiguous substring of `hay`
(`String.prototype.includes` / SQL `LIKE '%needle%'` after case folding). -/
def substrOf (needle hay : String) : Bool :=
  (hay.data.tails).any (fun t => needle.data.isPrefixOf t)

/-- UTF-8 size of one code point (`Buffer.byteLength` semantics). -/
def charBytes (c : Char) : Nat :=
  if c.toNat < 128 then 1
  else if c.toNat < 2048 then 2
  else if c.toNat < 65536 then 3
  else 4

/-- `Buffer.byteLength(s, 'utf8')`. -/
def byteLen (s : String) : Nat := s.data.foldl (fun n c => n + charBytes c) 0

/-- JS `x || default` for an optional numeric argument: `undefined` and the
falsy `0` both select the default. -/
def jsOr (o : Option Nat) (d : Nat) : Nat :=
  match o with
  | some n => if n = 0 then d else n
  | none => d

/-! ## Storage Engine: `MemoryDatabase` (src/memory-server/database.ts)

A per-project SQLite file is modelled as a list of `MemoryRow`s in rowid
order.  The `project_id` column is stored on every row and every query of
the class filters on it, exactly as the SQL in the source does. -/

/-- One row of the `memories` table (including the `dedupe_hash` column,
which the TypeScript `Memory` interface does not expose). -/
structure MemoryRow where
  id : String
  project_id : String
  summary : String
  text : String
  tags : List String
  paths : List String
  importance : Nat
  created_at : Nat
  updated_at : Nat
  ttl : Option Nat
  expires_at : Option Nat
  dedupe_hash : String
deriving DecidableEq, Repr

/-- Arguments of `MemoryDatabase.save`. -/
structure SaveParams where
  summary : String
  text : String
  tags : Option (List String)
  paths : Option (List String)
  importance : Option Nat
  ttl : Option Nat
deriving DecidableEq, Repr

/-- `computeDedupeHash`: md5 of `summary.toLowerCase().trim() + '|' +
paths.sort().join('|')`, with md5 modelled as the identity on the
normalized pre-image. -/
def computeDedupeHash (summary : String) (paths : List String) : String :=
  jsTrim (jsToLower summary) ++ "|" ++
    String.intercalate "|" (paths.mergeSort (fun a b => strLeB a.data b.data))

/-- What `save` returns: the freshly built `Memory` object on insert, or the
`{ id }` object produced by the private `update` on a fingerprint hit. -/
inductive SaveReturn where
  | inserted (m : MemoryRow)
  | updated (id : String)
deriving DecidableEq, Repr

/-- Field updates of the private `MemoryDatabase.update`: `updated_at` is
always set; `summary` and `text` are always present in a `save`-forwarded
call; `tags`, `paths` and `importance` only when provided.  `ttl`,
`expires_at`, `created_at` and `dedupe_hash` are not touched. -/
def updateRow (p : SaveParams) (now : Nat) (r : MemoryRow) : MemoryRow :=
  { r with
    updated_at := now
    summary := p.summary
    text := p.text
    tags := p.tags.getD r.tags
    paths := p.paths.getD r.paths
    importance := p.importance.getD r.importance }

/-- `UPDATE memories SET ... WHERE id = ? AND project_id = ?`. -/
def updateDb (db : List MemoryRow) (pid targetId : String) (p : SaveParams)
    (now : Nat) : List MemoryRow :=
  db.map (fun r => if r.id = targetId ∧ r.project_id = pid then updateRow p now r else r)

/-- The expiry computed at insert: `params.ttl ? now + params.ttl * 1000 :
null` (a `ttl` of `0` is falsy in JS and yields `null`). -/
def expiryOfTtl (ttl : Option Nat) (now : Nat) : Option Nat :=
  match ttl with
  | some t => if t = 0 then none else some (now + t * 1000)
  | none => none

/-- The row inserted by `save` when no fingerprint collision is found. -/
def insertedRow (pid : String) (p : SaveParams) (freshId : String) (now : Nat) :
    MemoryRow :=
  { id := freshId
    project_id := pid
    summary := p.summary
    text := p.text
    tags := p.tags.getD []
    paths := p.paths.getD []
    importance := jsOr p.importance 3
    created_at := now
    updated_at := now
    ttl := match p.ttl with | some 0 => none | o => o
    expires_at := expiryOfTtl p.ttl now
    dedupe_hash := computeDedupeHash p.summary (p.paths.getD []) }

/-- `SELECT id FROM memories WHERE dedupe_hash = ? AND project_id = ?`
(first row in rowid order, as `.get()` returns). -/
def findDup (db : List MemoryRow) (pid h : String) : Option MemoryRow :=
  db.find? (fun r => r.dedupe_hash = h && r.project_id = pid)

/-- `MemoryDatabase.save`: compute the fingerprint; on a hit in this
project update the existing record, otherwise insert a new row with the
externally supplied fresh id. -/
def save (db : List MemoryRow) (pid : String) (p : SaveParams)
    (freshId : String) (now : Nat) : List MemoryRow × SaveReturn :=
  match findDup db pid (computeDedupeHash p.summary (p.paths.getD [])) with
  | some ex => (updateDb db pid ex.id p now, SaveReturn.updated ex.id)
  | none => (db ++ [insertedRow pid p freshId now], SaveReturn.inserted (insertedRow pid p freshId now))

/-- Number of rows of a project carrying a given fingerprint. -/
def fpCount (db : List MemoryRow) (pid h : String) : Nat :=
  (db.filter (fun r => r.dedupe_hash = h && r.project_id = pid)).length

/-! ## Storage Engine: query execution and the fallback cascade -/

/-- One element of a search result list. -/
structure SearchResult where
  memory : MemoryRow
  score : ℚ
  snippet : Option String
deriving DecidableEq, Repr

/-- Parameters shared by `search`, `searchWithDebug` and `executeSearch`. -/
structure MemQuery where
  q : String
  k : Option Nat
  require_path_match : Bool
  tags : List String
  include_expired : Bool
deriving DecidableEq, Repr

/-- `escapeQuery` of `MemoryDatabase`: double the double quotes, replace
every character outside `[\w\s]` by a space, collapse whitespace, trim, and
wrap the result in double quotes whenever it differs from the input or
contains a space. -/
def escapeQuery (q : String) : String :=
  let doubled := String.mk (q.data.flatMap (fun c => if c = '"' then ['"', '"'] else [c]))
  let spaced := String.mk (doubled.data.map (fun c => if wordCharB c || spaceCharB c then c else ' '))
  let cleaned := jsTrim (collapseWs spaced)
  if cleaned ≠ q ∨ cleaned.data.contains ' ' then "\"" ++ cleaned ++ "\"" else cleaned

/-- Path-like tokens of a query: whitespace-delimited terms containing a
slash, a backslash or a dot. -/
def pathTermsOf (q : String) : List String :=
  (splitWs q).filter (fun t => t.data.contains '/' || t.data.contains '\\' || t.data.contains '.')

/-- The `WHERE` clause of `executeSearch` applied to one row: FTS match,
project scope, optional expiry filter, optional tag-intersection filter and
the optional path filter (`LIKE '%term%'` is case-insensitive for ASCII). -/
def rowMatches (ftsMatch : String → MemoryRow → Bool) (pid : String) (now : Nat)
    (p : MemQuery) (r : MemoryRow) : Bool :=
  ftsMatch (escapeQuery p.q) r && r.project_id = pid &&
  (p.include_expired || (match r.expires_at with | none => true | some e => now < e)) &&
  (p.tags.isEmpty || r.tags.any (fun v => p.tags.contains v)) &&
  (!p.require_path_match ||
    r.paths.any (fun path => (pathTermsOf p.q).any
      (fun t => substrOf (jsToLower t) (jsToLower path))))

/-- `ORDER BY fts_score DESC, m.importance DESC, m.created_at DESC` as a
boolean "comes no later than" relation on rows. -/
def rowOrdB (sc : MemoryRow → ℚ) (a b : MemoryRow) : Bool :=
  if sc a ≠ sc b then sc b ≤ sc a
  else if a.importance ≠ b.importance then decide (b.importance ≤ a.importance)
  else decide (b.created_at ≤ a.created_at)

/-- `MemoryDatabase.executeSearch`: filter, sort, truncate to `k` and wrap
rows as results (`score` is the negated bm25 value, as in the source). -/
def executeSearch (ftsMatch : String → MemoryRow → Bool) (bm25 : String → MemoryRow → ℚ)
    (snip : String → MemoryRow → String) (db : List MemoryRow) (pid : String)
    (now : Nat) (p : MemQuery) : List SearchResult :=
  let k := jsOr p.k 10
  if p.require_path_match ∧ pathTermsOf p.q = [] then []
  else
    let rows := db.filter (rowMatches ftsMatch pid now p)
    let sorted := rows.insertionSort (fun a b => rowOrdB (bm25 (escapeQuery p.q)) a b = true)
    (sorted.take k).map (fun r =>
      { memory := r
        score := -(bm25 (escapeQuery p.q) r)
        snippet := some (snip (escapeQuery p.q) r) })

/-- `q.match(/[^\w\s]/)` is non-null. -/
def hasSpecialChar (q : String) : Bool :=
  q.data.any (fun c => !(wordCharB c || spaceCharB c))

/-- The fallback-1 reformulation: `q.replace(/[^\w\s]/g, ' ')
.replace(/\s+/g, ' ').trim()`. -/
def fallbackQuery (q : String) : String :=
  jsTrim (collapseWs (String.mk (q.data.map
    (fun c => if wordCharB c || spaceCharB c then c else ' '))))

/-- `q.split(/\s+/).filter(w => w.length > 2)` (the boundary empty pieces a
JS `/\s+/` split can produce are removed by the length filter). -/
def queryWords (q : String) : List String :=
  (splitWs q).filter (fun w => 2 < w.length)

/-- `words.join(' OR ')`. -/
def orQuery (words : List String) : String := String.intercalate " OR " words

/-- Collapse an executor outcome to the list of results the cascade acts
on: a thrown exception (`none`) behaves like an empty stage. -/
def yieldOf (o : Option (List SearchResult)) : List SearchResult := o.getD []

/-- `MemoryDatabase.search`: the four-stage fallback cascade over an
executor.  The executor abstracts `executeSearch`; a `none` outcome models
a `catch`-caught exception. -/
def search (exec : MemQuery → Option (List SearchResult)) (p : MemQuery) :
    List SearchResult :=
  let r1 := yieldOf (exec p)
  if r1 ≠ [] then r1
  else
    let r2 := if hasSpecialChar p.q then yieldOf (exec { p with q := fallbackQuery p.q }) else []
    if r2 ≠ [] then r2
    else
      let words := queryWords p.q
      let r3 := if 1 < words.length then yieldOf (exec { p with q := orQuery words }) else []
      if r3 ≠ [] then r3
      else
        match words with
        | w :: _ => yieldOf (exec { p with q := w })
        | [] => []

/-- The debug payload of `searchWithDebug` (timing and the scanned-row
count, which depend on the wall clock and are not modelled, are omitted). -/
structure DebugInfo where
  original_query : String
  queries_tried : List String
  fallback_used : Option String
deriving DecidableEq, Repr

/-- Return shape of `searchWithDebug`. -/
structure EnhancedSearchResult where
  results : List SearchResult
  debug : DebugInfo
deriving DecidableEq, Repr

/-- `MemoryDatabase.searchWithDebug`: the same cascade, recording each
literal query as it is pushed (before the stage executes) and the
identifier of the stage that produced the returned results. -/
def searchWithDebug (exec : MemQuery → Option (List SearchResult)) (p : MemQuery) :
    EnhancedSearchResult :=
  let t1 := [p.q]
  let r1 := yieldOf (exec p)
  if r1 ≠ [] then ⟨r1, p.q, t1, none⟩
  else
    let t2 := if hasSpecialChar p.q then t1 ++ [fallbackQuery p.q] else t1
    let r2 := if hasSpecialChar p.q then yieldOf (exec { p with q := fallbackQuery p.q }) else []
    if r2 ≠ [] then ⟨r2, p.q, t2, some "removed_special_chars"⟩
    else
      let words := queryWords p.q
      let t3 := if 1 < words.length then t2 ++ [orQuery words] else t2
      let r3 := if 1 < words.length then yieldOf (exec { p with q := orQuery words }) else []
      if r3 ≠ [] then ⟨r3, p.q, t3, some "or_search"⟩
      else
        match words with
        | w :: _ =>
          match exec { p with q := w } with
          | some r4 => ⟨r4, p.q, t3 ++ [w], some "broad_search"⟩
          | none => ⟨[], p.q, t3 ++ [w], some "all_failed"⟩
        | [] => ⟨[], p.q, t3, some "all_failed"⟩

/-- `MemoryDatabase.getRecent`: project rows, optional expiry filter,
optional `LIKE prefix||'%'` path filter, newest first, limit `k`. -/
def getRecent (db : List MemoryRow) (pid : String) (now : Nat)
    (k : Option Nat) (pathPrefixOpt : Option String) (include_expired : Bool) :
    List MemoryRow :=
  let rows := db.filter (fun r =>
    r.project_id = pid &&
    (include_expired || (match r.expires_at with | none => true | some e => now < e)) &&
    (match pathPrefixOpt with
     | none => true
     | some pre => r.paths.any (fun path =>
         (jsToLower pre).data.isPrefixOf (jsToLower path).data)))
  (rows.insertionSort (fun a b => b.created_at ≤ a.created_at)).take (jsOr k 10)

/-- `MemoryDatabase.get`: first row with the id inside this project. -/
def get (db : List MemoryRow) (pid id : String) : Option MemoryRow :=
  (db.filter (fun r => r.id = id && r.project_id = pid)).head?

/-- `MemoryDatabase.getMultiple`: per-id association, `none` for absent
ids; when duplicate rows share an id the last one fills the slot, as the
object assignment loop does. -/
def getMultiple (db : List MemoryRow) (pid : String) (ids : List String) :
    List (String × Option MemoryRow) :=
  let rows := db.filter (fun r => ids.contains r.id && r.project_id = pid)
  ids.map (fun i => (i, (rows.filter (fun r => r.id = i)).getLast?))

/-! ## Lemmas about `save` and fingerprints -/

theorem fpCount_updateDb (db : List MemoryRow) (pid tid h : String) (p : SaveParams)
    (now : Nat) : fpCount (updateDb db pid tid p now) pid h = fpCount db pid h := by
  unfold fpCount updateDb
  rw [← List.countP_eq_length_filter, ← List.countP_eq_length_filter, List.countP_map]
  apply List.countP_congr
  intro r _
  by_cases hc : r.id = tid ∧ r.project_id = pid
  · simp [hc, updateRow]
  · simp [hc]

theorem findDup_none_iff (db : List MemoryRow) (pid h : String) :
    findDup db pid h = none ↔ fpCount db pid h = 0 := by
  unfold findDup fpCount
  rw [List.find?_eq_none, List.length_eq_zero, List.filter_eq_nil_iff]

theorem findDup_of_fpCount_pos (db : List MemoryRow) (pid h : String)
    (hpos : 0 < fpCount db pid h) : ∃ ex, findDup db pid h = some ex := by
  rcases hex : findDup db pid h with _ | ex
  · rw [findDup_none_iff] at hex
    omega
  · exact ⟨ex, rfl⟩

theorem findDup_mem {db : List MemoryRow} {pid h : String} {ex : MemoryRow}
    (hfd : findDup db pid h = some ex) :
    ex ∈ db ∧ ex.dedupe_hash = h ∧ ex.project_id = pid := by
  have hm := List.find?_some hfd
  have hmem := List.mem_of_find?_eq_some hfd
  simp at hm
  exact ⟨hmem, hm.1, hm.2⟩

theorem save_of_findDup_some {db : List MemoryRow} {pid : String} {p : SaveParams}
    {fid : String} {now : Nat} {ex : MemoryRow}
    (h : findDup db pid (computeDedupeHash p.summary (p.paths.getD [])) = some ex) :
    save db pid p fid now = (updateDb db pid ex.id p now, SaveReturn.updated ex.id) := by
  unfold save
  rw [h]

theorem save_of_findDup_none {db : List MemoryRow} {pid : String} {p : SaveParams}
    {fid : String} {now : Nat}
    (h : findDup db pid (computeDedupeHash p.summary (p.paths.getD [])) = none) :
    save db pid p fid now =
      (db ++ [insertedRow pid p fid now], SaveReturn.inserted (insertedRow pid p fid now)) := by
  unfold save
  rw [h]

theorem fpCount_append_single (db : List MemoryRow) (r : MemoryRow) (pid h : String) :
    fpCount (db ++ [r]) pid h =
      fpCount db pid h + (if r.dedupe_hash = h ∧ r.project_id = pid then 1 else 0) := by
  unfold fpCount
  rw [List.filter_append, List.length_append]
  congr 1
  by_cases hr : r.dedupe_hash = h ∧ r.project_id = pid
  · simp [hr.1, hr.2]
  · rcases not_and_or.mp hr with h1 | h1 <;> simp [h1]

/-- C1.  `save` computes the dedupe fingerprint from the normalized summary
and the sorted paths; on a fingerprint hit inside the project it updates
that record's mutable fields and `updated_at` and returns its id without
inserting; otherwise it inserts a new record carrying the fresh id and
returns it; and two saves with identical normalized fingerprint leave
exactly one record with that fingerprint in the project (given the store
invariant that fingerprints are unique per project before the calls). -/
theorem save_dedupe_spec (db : List MemoryRow) (pid : String) (p p₂ : SaveParams)
    (id₁ id₂ : String) (n₁ n₂ : Nat) :
    (∀ ex, findDup db pid (computeDedupeHash p.summary (p.paths.getD [])) = some ex →
      (save db pid p id₁ n₁).1 = updateDb db pid ex.id p n₁ ∧
      (save db pid p id₁ n₁).1.length = db.length ∧
      (save db pid p id₁ n₁).2 = SaveReturn.updated ex.id ∧
      (∀ r ∈ (save db pid p id₁ n₁).1, r.id = ex.id → r.project_id = pid →
        r.summary = p.summary ∧ r.text = p.text ∧ r.updated_at = n₁ ∧
        ∃ r₀ ∈ db, r₀.id = ex.id ∧ r.created_at = r₀.created_at ∧
          r.dedupe_hash = r₀.dedupe_hash ∧ r.ttl = r₀.ttl ∧ r.expires_at = r₀.expires_at)) ∧
    (findDup db pid (computeDedupeHash p.summary (p.paths.getD [])) = none →
      (save db pid p id₁ n₁).1 = db ++ [insertedRow pid p id₁ n₁] ∧
      (save db pid p id₁ n₁).2 = SaveReturn.inserted (insertedRow pid p id₁ n₁) ∧
      (insertedRow pid p id₁ n₁).id = id₁ ∧
      (insertedRow pid p id₁ n₁).project_id = pid ∧
      (insertedRow pid p id₁ n₁).created_at = n₁) ∧
    (computeDedupeHash p₂.summary (p₂.paths.getD []) =
        computeDedupeHash p.summary (p.paths.getD []) →
      fpCount db pid (computeDedupeHash p.summary (p.paths.getD [])) ≤ 1 →
      fpCount (save (save db pid p id₁ n₁).1 pid p₂ id₂ n₂).1 pid
        (computeDedupeHash p.summary (p.paths.getD [])) = 1) := by
  refine ⟨?_, ?_, ?_⟩
  · intro ex hfd
    have hsave : save db pid p id₁ n₁ =
        (updateDb db pid ex.id p n₁, SaveReturn.updated ex.id) := save_of_findDup_some hfd
    refine ⟨by rw [hsave], by rw [hsave]; simp [updateDb], by rw [hsave], ?_⟩
    intro r hr hid hpid
    rw [hsave] at hr
    simp only [updateDb, List.mem_map] at hr
    rcases hr with ⟨r₀, hr₀mem, hr₀eq⟩
    by_cases hc : r₀.id = ex.id ∧ r₀.project_id = pid
    · rw [if_pos hc] at hr₀eq
      subst hr₀eq
      exact ⟨rfl, rfl, rfl, r₀, hr₀mem, hc.1, rfl, rfl, rfl, rfl⟩
    · rw [if_neg hc] at hr₀eq
      subst hr₀eq
      exact absurd ⟨hid, hpid⟩ hc
  · intro hfd
    have hsave : save db pid p id₁ n₁ =
        (db ++ [insertedRow pid p id₁ n₁], SaveReturn.inserted (insertedRow pid p id₁ n₁)) :=
      save_of_findDup_none hfd
    exact ⟨by rw [hsave], by rw [hsave], rfl, rfl, rfl⟩
  · intro hh hle
    rcases hsplit : findDup db pid (computeDedupeHash p.summary (p.paths.getD [])) with - | ex
    · -- first save inserts
      have h0 : fpCount db pid (computeDedupeHash p.summary (p.paths.getD [])) = 0 :=
        (findDup_none_iff _ _ _).mp hsplit
      have hsave1 : (save db pid p id₁ n₁).1 = db ++ [insertedRow pid p id₁ n₁] :=
        congrArg Prod.fst (save_of_findDup_none hsplit)
      have hc1 : fpCount (save db pid p id₁ n₁).1 pid
          (computeDedupeHash p.summary (p.paths.getD [])) = 1 := by
        rw [hsave1, fpCount_append_single, h0]
        simp [insertedRow]
      -- second save finds the inserted row and updates
      rcases findDup_of_fpCount_pos (save db pid p id₁ n₁).1 pid
          (computeDedupeHash p.summary (p.paths.getD [])) (by omega) with ⟨ex₂, hfd₂⟩
      have hfd₂' : findDup (save db pid p id₁ n₁).1 pid
          (computeDedupeHash p₂.summary (p₂.paths.getD [])) = some ex₂ := by
        rw [hh]; exact hfd₂
      have hsave2 : (save (save db pid p id₁ n₁).1 pid p₂ id₂ n₂).1 =
          updateDb (save db pid p id₁ n₁).1 pid ex₂.id p₂ n₂ :=
        congrArg Prod.fst (save_of_findDup_some hfd₂')
      rw [hsave2, fpCount_updateDb]
      exact hc1
    · -- first save updates
      have hmem := findDup_mem hsplit
      have hge : 1 ≤ fpCount db pid (computeDedupeHash p.summary (p.paths.getD [])) := by
        unfold fpCount
        have : ex ∈ db.filter (fun r =>
            r.dedupe_hash = (computeDedupeHash p.summary (p.paths.getD [])) &&
            r.project_id = pid) := by
          rw [List.mem_filter]
          refine ⟨hmem.1, ?_⟩
          simp [hmem.2.1, hmem.2.2]
        calc 1 ≤ 1 := le_refl 1
        _ ≤ _ := List.length_pos.mpr (List.ne_nil_of_mem this)
      have hc1 : fpCount (save db pid p id₁ n₁).1 pid
          (computeDedupeHash p.summary (p.paths.getD [])) = 1 := by
        have hsave1 : (save db pid p id₁ n₁).1 = updateDb db pid ex.id p n₁ :=
          congrArg Prod.fst (save_of_findDup_some hsplit)
        rw [hsave1, fpCount_updateDb]
        omega
      rcases findDup_of_fpCount_pos (save db pid p id₁ n₁).1 pid
          (computeDedupeHash p.summary (p.paths.getD [])) (by omega) with ⟨ex₂, hfd₂⟩
      have hfd₂' : findDup (save db pid p id₁ n₁).1 pid
          (computeDedupeHash p₂.summary (p₂.paths.getD [])) = some ex₂ := by
        rw [hh]; exact hfd₂
      have hsave2 : (save (save db pid p id₁ n₁).1 pid p₂ id₂ n₂).1 =
          updateDb (save db pid p id₁ n₁).1 pid ex₂.id p₂ n₂ :=
        congrArg Prod.fst (save_of_findDup_some hfd₂')
      rw [hsave2, fpCount_updateDb]
      exact hc1

/-- Demo parameters for the C1 witness. -/
def saveDemoParams : SaveParams :=
  { summary := "JWT auth flow", text := "body", tags := some ["auth"],
    paths := some ["src/middleware/auth.ts"], importance := some 5, ttl := none }

/-- Witness for C1: from an empty store, two saves of identical parameters
leave exactly one record with the shared fingerprint. -/
theorem save_dedupe_spec_witness :
    fpCount (save (save [] "p1" saveDemoParams "m1" 5).1 "p1" saveDemoParams "m2" 6).1 "p1"
      (computeDedupeHash saveDemoParams.summary (saveDemoParams.paths.getD [])) = 1 :=
  (save_dedupe_spec [] "p1" saveDemoParams saveDemoParams "m1" "m2" 5 6).2.2 rfl
    (by decide)

/-! ## The fallback cascade: C2 and C3 -/

/-- C2.  When the query contains a character outside `[\w\s]` (so the code
builds a stage-2 reformulation), stage 1 yields zero results and stage 2
yields at least one, `searchWithDebug` returns the stage-2 results, reports
the stage-2 identifier `removed_special_chars` as the fallback used, and
its `queries_tried` lists the stage-1 literal query immediately before the
stage-2 literal query. -/
theorem searchWithDebug_stage2_fallback (exec : MemQuery → Option (List SearchResult))
    (p : MemQuery) (hs : hasSpecialChar p.q = true)
    (h1 : yieldOf (exec p) = [])
    (h2 : yieldOf (exec { p with q := fallbackQuery p.q }) ≠ []) :
    (searchWithDebug exec p).results = yieldOf (exec { p with q := fallbackQuery p.q }) ∧
    (searchWithDebug exec p).debug.fallback_used = some "removed_special_chars" ∧
    (searchWithDebug exec p).debug.queries_tried = [p.q, fallbackQuery p.q] := by
  simp only [searchWithDebug, hs, h1, ne_eq, not_true_eq_false, if_false, if_true,
    ite_true, ite_false, List.singleton_append, not_false_eq_true, h2]
  simp [h2]

/-- Concrete executor for the C2 witness: the literal query `"foo-bar!"`
matches nothing, the stage-2 reformulation `"foo bar"` matches one record. -/
def demoRow : MemoryRow :=
  { id := "m1", project_id := "p1", summary := "foo bar", text := "t", tags := [],
    paths := [], importance := 3, created_at := 0, updated_at := 0,
    ttl := none, expires_at := none, dedupe_hash := "h" }

/-- See `demoRow`. -/
def demoExec (sp : MemQuery) : Option (List SearchResult) :=
  if sp.q = "foo bar" then some [{ memory := demoRow, score := 0, snippet := none }] else some []

/-- The query of the C2 witness. -/
def demoQuery : MemQuery :=
  { q := "foo-bar!", k := none, require_path_match := false, tags := [], include_expired := false }

/-- Witness for C2 at the spec's own example `searchWithDebug("foo-bar!")`. -/
theorem searchWithDebug_stage2_fallback_witness :
    (searchWithDebug demoExec demoQuery).results =
      yieldOf (demoExec { demoQuery with q := fallbackQuery demoQuery.q }) ∧
    (searchWithDebug demoExec demoQuery).debug.fallback_used = some "removed_special_chars" ∧
    (searchWithDebug demoExec demoQuery).debug.queries_tried =
      [demoQuery.q, fallbackQuery demoQuery.q] :=
  searchWithDebug_stage2_fallback demoExec demoQuery (by decide) (by decide) (by decide)

/-- Stages 3 and 4 of the cascade, as a standalone equivalence over the
term list of the query. -/
theorem stage34_eq_nil (exec : MemQuery → Option (List SearchResult)) (p : MemQuery)
    (ws : List String) :
    ((if (if 1 < ws.length then yieldOf (exec { p with q := orQuery ws }) else []) ≠ []
      then (if 1 < ws.length then yieldOf (exec { p with q := orQuery ws }) else [])
      else
        match ws with
        | w :: _ => yieldOf (exec { p with q := w })
        | [] => []) = []) ↔
    ((1 < ws.length → yieldOf (exec { p with q := orQuery ws }) = []) ∧
     (∀ w, ws.head? = some w → yieldOf (exec { p with q := w }) = [])) := by
  rcases ws with _ | ⟨w, ws⟩
  · simp
  · rcases ws with _ | ⟨v, vs⟩
    · have hg : ¬ (1 < ([w] : List String).length) := by simp
      simp only [hg, if_false, ite_false, ne_eq, not_true_eq_false, false_implies, true_and]
      constructor
      · intro h u hu
        simp only [List.head?_cons, Option.some.injEq] at hu
        rw [← hu]
        exact h
      · intro h
        exact h w rfl
    · have hg : 1 < (w :: v :: vs).length := by simp
      simp only [eq_true hg, if_true, true_implies]
      by_cases hr3 : yieldOf (exec { p with q := orQuery (w :: v :: vs) }) = []
      · simp only [hr3, ne_eq, not_true_eq_false, if_false, ite_false, true_and]
        constructor
        · intro h u hu
          simp only [List.head?_cons, Option.some.injEq] at hu
          rw [← hu]
          exact h
        · intro h
          exact h w rfl
      · simp [hr3]

/-- C3.  `search` is a total function of the executor — an executor
exception (`none`) at any cascade stage behaves exactly like that stage
producing zero results, so no malformed free-text query can make the
operation fail — and it returns the empty list precisely when every
applicable stage either failed or produced zero results: the literal query,
the special-character reformulation (when the query has a character outside
`[\w\s]`), the OR query (when more than one term of length > 2 exists) and
the first-term query (when at least one such term exists). -/
theorem search_cascade_exhaustion (exec : MemQuery → Option (List SearchResult))
    (p : MemQuery) :
    search exec p = [] ↔
      (yieldOf (exec p) = [] ∧
       (hasSpecialChar p.q = true → yieldOf (exec { p with q := fallbackQuery p.q }) = []) ∧
       (1 < (queryWords p.q).length →
         yieldOf (exec { p with q := orQuery (queryWords p.q) }) = []) ∧
       (∀ w, (queryWords p.q).head? = some w → yieldOf (exec { p with q := w }) = [])) := by
  simp only [search]
  by_cases hr1 : yieldOf (exec p) = []
  · simp only [hr1, ne_eq, not_true_eq_false, if_false, ite_false, true_and]
    by_cases hsc : hasSpecialChar p.q
    · simp only [hsc, if_true, ite_true, forall_const, true_implies]
      by_cases hr2 : yieldOf (exec { p with q := fallbackQuery p.q }) = []
      · simp only [hr2, ne_eq, not_true_eq_false, if_false, ite_false, true_and]
        exact stage34_eq_nil exec p (queryWords p.q)
      · simp [hr2]
    · have hsc' : hasSpecialChar p.q = false := by simpa using hsc
      simp only [hsc', Bool.false_eq_true, if_false, ite_false, ne_eq,
        not_true_eq_false, false_implies, true_and]
      exact stage34_eq_nil exec p (queryWords p.q)
  · simp [hr1]

/-! ## Context Assembler: `ContextBroker` (src/memory-server/context-broker.ts)

`preview` is parameterized over the two store search functions it calls
(`MemoryDatabase.search` and `ConceptStore.search`), over the project
allowlist it reads, and over `Date.now()`. -/

/-- JS `s.split(/\s+/)`: runs of whitespace merged into one separator
(boundary separators still produce empty pieces, interior runs do not). -/
def jsSplitWsRuns (s : String) : List String := splitWs (collapseWs s)

/-- `s.split(sep)` for a single separator character. -/
def splitCharAux (sep : Char) (acc : List Char) : List Char → List (List Char)
  | [] => [acc.reverse]
  | c :: rest =>
    if c = sep then acc.reverse :: splitCharAux sep [] rest
    else splitCharAux sep (c :: acc) rest

/-- See `splitCharAux`. -/
def splitChar (sep : Char) (s : String) : List String :=
  (splitCharAux sep [] s.data).map String.mk

/-- A concept row of the plain `ConceptStore` the broker queries
(src/memory-server/concept-store.ts, interface `Concept`). -/
structure ConceptP where
  id : String
  title : String
  body : String
  tags : List String
  importance : Nat
  created_at : Nat
  updated_at : Nat
deriving DecidableEq, Repr

/-- `ConceptSearchResult` of the plain store. -/
structure ConceptSearchResultP where
  concept : ConceptP
  score : ℚ
  snippet : Option String
deriving DecidableEq, Repr

/-- Parameters of `ConceptStore.search`. -/
structure ConceptQueryP where
  q : String
  k : Option Nat
  allowlist : Option (List String)
  projectId : Option String
deriving DecidableEq, Repr

/-- The kind tag of a context injection. -/
inductive InjType where
  | memory
  | concept
deriving DecidableEq, Repr

/-- `ContextInjection` of the broker. -/
structure ContextInjection where
  id : String
  type : InjType
  summary : String
  content : String
  score : ℚ
  source : String
  byteSize : Nat
deriving DecidableEq, Repr

/-- Per-category candidate counts of a preview. -/
structure PreviewStats where
  projectMatches : Nat
  pathMatches : Nat
  conceptMatches : Nat
  totalCandidates : Nat
deriving DecidableEq, Repr

/-- Return shape of `preview`. -/
structure ContextPreview where
  injections : List ContextInjection
  budgetUsed : Nat
  budgetLimit : Nat
  topK : Nat
  stats : PreviewStats
deriving DecidableEq, Repr

/-- The requested mode of a preview. -/
inductive Mode where
  | hard
  | soft
  | smart
deriving DecidableEq, Repr

/-- Arguments of `preview` (destructuring defaults: an omitted field, not a
falsy one, selects the default). -/
structure PreviewParams where
  task : String
  open_files : List String
  budget_bytes : Option Nat
  top_k : Option Nat
  mode : Mode
deriving DecidableEq, Repr

/-- `normalizeForDedupe`: lowercase, strip every character outside
`[\w\s]`, collapse whitespace, trim. -/
def normalizeForDedupe (summary : String) : String :=
  jsTrim (collapseWs (String.mk ((jsToLower summary).data.filter
    (fun c => wordCharB c || spaceCharB c))))

/-- Append-if-absent, the insertion-order behaviour of a JS `Set`. -/
def pushUnique (l : List String) (s : String) : List String :=
  if l.contains s then l else l ++ [s]

/-- `inferPathPrefixes`: for every open file, every ancestor of its
slash-separated pieces as an absolute-style path plus a `/*`-suffixed
variant for the proper ancestors. -/
def inferPathPrefixes (openFiles : List String) : List String :=
  openFiles.foldl (fun acc file =>
    let parts := (splitChar '/' file).filter (fun piece => piece ≠ "")
    (List.range parts.length).foldl (fun acc2 i =>
      let pre := "/" ++ String.intercalate "/" (parts.take (i + 1))
      let acc3 := pushUnique acc2 pre
      if i + 1 < parts.length then pushUnique acc3 (pre ++ "/*") else acc3) acc) []

/-- `replace(/\*$/, '')`: drop one trailing `*`. -/
def stripTrailWild (s : String) : String :=
  if s.data.getLast? = some '*' then String.mk s.data.dropLast else s

/-- `pathMatchStrength`: the best overlap between any stored path and any
derived path prefix — `1` on an exact match (after stripping a trailing
`*`), otherwise the length ratio of the shorter to the longer string when
one is a prefix of the other. -/
def pathMatchStrength (memoryPaths prefixes : List String) : ℚ :=
  if memoryPaths = [] ∨ prefixes = [] then 0
  else
    memoryPaths.foldl (fun acc memPath =>
      let memClean := stripTrailWild memPath
      prefixes.foldl (fun acc2 pre =>
        let preClean := stripTrailWild pre
        if memClean = preClean then 1
        else if memClean.data.isPrefixOf preClean.data ∨ preClean.data.isPrefixOf memClean.data then
          max acc2 ((min memClean.length preClean.length : ℚ) /
            (max memClean.length preClean.length : ℚ))
        else acc2) acc) 0

/-- `hasPathMatch`: strength strictly above `0.3`. -/
def hasPathMatch (memoryPaths prefixes : List String) : Bool :=
  decide ((3 / 10 : ℚ) < pathMatchStrength memoryPaths prefixes)

/-- One tag matching one (lowercased) task word: containment either way, or
agreement of the two strings on their first `min`-length characters when
both have length at least 3. -/
def tagWordMatch (tagLower word : String) : Bool :=
  substrOf word tagLower || substrOf tagLower word ||
  (3 ≤ word.length && 3 ≤ tagLower.length &&
    word.data.take (min word.length tagLower.length) =
      tagLower.data.take (min word.length tagLower.length))

/-- `taskMatchStrength`: fraction of the record's tags matched by some task
word. -/
def taskMatchStrength (tags : List String) (task : String) : ℚ :=
  let taskWords := jsSplitWsRuns (jsToLower task)
  let matchCount := (tags.filter (fun tag => taskWords.any
    (fun w => tagWordMatch (jsToLower tag) w))).length
  if tags.length = 0 then 0 else (matchCount : ℚ) / (tags.length : ℚ)

/-- `recencyScore`: full weight below 24 h, then 0.8 below 7 days, 0.5
below 30 days, 0.2 beyond. -/
def recencyScore (now created_at : Nat) : ℚ :=
  let ageHours : ℚ := ((now : ℚ) - (created_at : ℚ)) / (1000 * 60 * 60)
  if ageHours < 24 then 1
  else if ageHours < 168 then 4 / 5
  else if ageHours < 720 then 1 / 2
  else 1 / 5

/-- `formatMemoryForInjection`. -/
def formatMemoryForInjection (m : MemoryRow) : String :=
  String.intercalate "\n\n" (["## " ++ m.summary, m.text] ++
    (if m.paths ≠ [] then ["**Paths:** " ++ String.intercalate ", " m.paths] else []) ++
    (if m.tags ≠ [] then ["**Tags:** " ++ String.intercalate ", " m.tags] else []))

/-- `formatConceptForInjection`. -/
def formatConceptForInjection (c : ConceptP) : String :=
  "## " ++ c.title ++ "\n\n" ++ c.body ++ "\n\n**Tags:** " ++ String.intercalate ", " c.tags

/-- The task words used by the single-word special case of the scoring
formula: `task.toLowerCase().split(/\s+/).filter(w => w.length > 2)`. -/
def scoringTaskWords (task : String) : List String :=
  (jsSplitWsRuns (jsToLower task)).filter (fun w => 2 < w.length)

/-- `scoreMemories`, for one search result: the additive scoring formula of
the broker, with the dominant `10.0` path multiplier in the single-word
case, the `2.0` multiplier plus high-affinity bonus otherwise, the
tag-overlap term, the single-word tag bonus, recency, importance, the
cross-project penalty and the capped FTS contribution. -/
def scoreMemory (pid : String) (now : Nat) (prefixes : List String) (task : String)
    (result : SearchResult) : ContextInjection :=
  let memory := result.memory
  let isSingleWord := (scoringTaskWords task).length = 1
  let pathScore := pathMatchStrength memory.paths prefixes
  let tagScore := taskMatchStrength memory.tags task
  let score : ℚ :=
    (if memory.project_id = pid then 3 / 2 else 0) +
    (if isSingleWord ∧ 0 < pathScore then 10 * pathScore
     else 2 * pathScore + (if (1 / 2 : ℚ) < pathScore then 2 else 0)) +
    (4 / 5) * tagScore +
    (if isSingleWord ∧ 0 < tagScore then 3 else 0) +
    (3 / 5) * recencyScore now memory.created_at +
    (3 / 5) * (jsOr (some memory.importance) 3 : ℚ) -
    (if memory.project_id ≠ pid then 1 else 0) +
    min (result.score / 10) 1
  { id := memory.id
    type := InjType.memory
    summary := memory.summary
    content := formatMemoryForInjection memory
    score := score
    source := memory.project_id ++ ":" ++ memory.id
    byteSize := byteLen (formatMemoryForInjection memory) }

/-- `scoreConcepts`, for one concept candidate: flat base bonus, tag
overlap, importance and the capped FTS contribution; no recency term. -/
def scoreConcept (task : String) (cr : ConceptP × ℚ) : ContextInjection :=
  let score : ℚ :=
    2 + (4 / 5) * taskMatchStrength cr.1.tags task + (3 / 5) * (cr.1.importance : ℚ) +
    min (cr.2 / 10) 1
  { id := cr.1.id
    type := InjType.concept
    summary := cr.1.title
    content := formatConceptForInjection cr.1
    score := score
    source := "global:" ++ cr.1.id
    byteSize := byteLen (formatConceptForInjection cr.1) }

/-- The greedy selection loop of `selectByBudget`: stop (`break`) when the
selection is full or the candidate does not fit the remaining budget; skip
(`continue`) a candidate whose normalized summary was already selected. -/
def selectGo (budgetLimit topK : Nat) :
    List ContextInjection → List ContextInjection → Nat → List String →
    List ContextInjection
  | [], selected, _, _ => selected.reverse
  | c :: rest, selected, budgetUsed, seen =>
    if topK ≤ selected.length then selected.reverse
    else if budgetLimit < budgetUsed + c.byteSize then selected.reverse
    else if seen.contains (normalizeForDedupe c.summary) then
      selectGo budgetLimit topK rest selected budgetUsed seen
    else
      selectGo budgetLimit topK rest (c :: selected) (budgetUsed + c.byteSize)
        (normalizeForDedupe c.summary :: seen)

/-- `ContextBroker.selectByBudget`. -/
def selectByBudget (candidates : List ContextInjection) (budgetLimit topK : Nat) :
    List ContextInjection :=
  selectGo budgetLimit topK candidates [] 0 []

/-- The stop-word set of `extractSearchTerms`. -/
def stopWords : List String :=
  ["the", "a", "an", "and", "or", "but", "in", "on", "at", "to", "for",
   "of", "with", "by", "from", "up", "about", "into", "through", "during",
   "how", "when", "where", "why", "what", "which", "who", "whom", "this",
   "that", "these", "those", "am", "is", "are", "was", "were", "be", "been",
   "being", "have", "has", "had", "do", "does", "did", "will", "would",
   "should", "could", "may", "might", "must", "can", "need", "new", "create",
   "implement", "fix", "update", "add", "remove", "change", "modify"]

/-- `extractSearchTerms`: lowercase, drop stop words and short words, cap
to 5 terms; a single surviving term gets a trailing `*`, several are joined
with ` OR `, none falls back to the original task. -/
def extractSearchTerms (task : String) : String :=
  let words := ((jsSplitWsRuns (jsToLower task)).filter
    (fun w => 2 < w.length && !(stopWords.contains w))).take 5
  match words with
  | [w] => w ++ "*"
  | [] => task
  | ws => String.intercalate " OR " ws

/-- `ContextBroker.preview`: derive prefixes and the search query, query
the memory store (retrying once without the wildcard), query the concept
store according to the mode and filter by the minimum score, score both
candidate sets, sort descending, select by budget and report stats. -/
def preview (memSearch : MemQuery → List SearchResult)
    (conceptSearch : ConceptQueryP → List ConceptSearchResultP)
    (allowlist : List String) (pid : String) (now : Nat) (p : PreviewParams) :
    ContextPreview :=
  let budget_bytes := p.budget_bytes.getD 2048
  let top_k := p.top_k.getD 10
  let pathPrefixes := inferPathPrefixes p.open_files
  let searchQuery := extractSearchTerms p.task
  let memoryResults0 := memSearch
    { q := searchQuery, k := some 50, require_path_match := false,
      tags := [], include_expired := false }
  let memoryResults :=
    if memoryResults0 = [] ∧ searchQuery.data.getLast? = some '*' then
      memSearch
        { q := String.mk searchQuery.data.dropLast, k := some 50,
          require_path_match := false, tags := [], include_expired := false }
    else memoryResults0
  let conceptResults : List (ConceptP × ℚ) :=
    if p.mode = Mode.smart ∨ p.mode = Mode.soft then
      ((conceptSearch
          { q := searchQuery, k := some 20,
            allowlist := if p.mode = Mode.smart then some allowlist else none,
            projectId := if p.mode = Mode.smart then some pid else none }).filter
        (fun c => (1 / 2 : ℚ) < c.score)).map (fun c => (c.concept, c.score))
    else []
  let scoredCandidates :=
    (memoryResults.map (scoreMemory pid now pathPrefixes p.task) ++
      conceptResults.map (scoreConcept p.task)).insertionSort
      (fun a b => b.score ≤ a.score)
  let selected := selectByBudget scoredCandidates budget_bytes top_k
  { injections := selected
    budgetUsed := (selected.map (fun i => i.byteSize)).sum
    budgetLimit := budget_bytes
    topK := top_k
    stats :=
      { projectMatches := (memoryResults.filter (fun r => r.memory.project_id = pid)).length
        pathMatches := (memoryResults.filter
          (fun r => hasPathMatch r.memory.paths pathPrefixes)).length
        conceptMatches := conceptResults.length
        totalCandidates := scoredCandidates.length } }

/-! ## C4: budget respect -/

theorem selectGo_bounds (B K : Nat) (cands sel : List ContextInjection) (used : Nat)
    (seen : List String) (hused : (sel.map (fun i => i.byteSize)).sum = used)
    (hub : used ≤ B) (hlen : sel.length ≤ K) :
    ((selectGo B K cands sel used seen).map (fun i => i.byteSize)).sum ≤ B ∧
    (selectGo B K cands sel used seen).length ≤ K := by
  induction cands generalizing sel used seen with
  | nil =>
    constructor
    · rw [selectGo, List.map_reverse, List.sum_reverse, hused]
      exact hub
    · rw [selectGo, List.length_reverse]
      exact hlen
  | cons c rest ih =>
    rw [selectGo]
    by_cases h1 : K ≤ sel.length
    · rw [if_pos h1]
      constructor
      · rw [List.map_reverse, List.sum_reverse, hused]
        exact hub
      · rw [List.length_reverse]
        exact hlen
    · rw [if_neg h1]
      by_cases h2 : B < used + c.byteSize
      · rw [if_pos h2]
        constructor
        · rw [List.map_reverse, List.sum_reverse, hused]
          exact hub
        · rw [List.length_reverse]
          exact hlen
      · rw [if_neg h2]
        by_cases h3 : seen.contains (normalizeForDedupe c.summary) = true
        · rw [if_pos h3]
          exact ih sel used seen hused hub hlen
        · rw [if_neg h3]
          refine ih (c :: sel) (used + c.byteSize) _ ?_ (by omega) ?_
          · simp only [List.map_cons, List.sum_cons, hused]
            omega
          · simp only [List.length_cons]
            omega

/-- C4.  Every `preview` result respects its budget and count limits: the
byte sizes of the returned injections sum to at most `budget_bytes` and at
most `top_k` injections are returned, with the defaults 2048 and 10
applied when the caller omits them. -/
theorem preview_budget_respect (memSearch : MemQuery → List SearchResult)
    (conceptSearch : ConceptQueryP → List ConceptSearchResultP)
    (allowlist : List String) (pid : String) (now : Nat) (p : PreviewParams) :
    ((preview memSearch conceptSearch allowlist pid now p).injections.map
      (fun i => i.byteSize)).sum ≤ p.budget_bytes.getD 2048 ∧
    (preview memSearch conceptSearch allowlist pid now p).injections.length ≤
      p.top_k.getD 10 ∧
    (preview memSearch conceptSearch allowlist pid now p).budgetLimit =
      p.budget_bytes.getD 2048 ∧
    (preview memSearch conceptSearch allowlist pid now p).topK = p.top_k.getD 10 := by
  simp only [preview, selectByBudget]
  refine ⟨?_, ?_, trivial, trivial⟩
  · exact (selectGo_bounds _ _ _ [] 0 [] rfl (Nat.zero_le _) (Nat.zero_le _)).1
  · exact (selectGo_bounds _ _ _ [] 0 [] rfl (Nat.zero_le _) (Nat.zero_le _)).2

/-! ## C5: admission semantics of the greedy selection -/

/-- 100 ASCII bytes. -/
def bigContent : String := String.mk (List.replicate 100 'a')

/-- 10 ASCII bytes. -/
def smallContent : String := String.mk (List.replicate 10 'b')

/-- A higher-scored candidate too large for a 50-byte budget. -/
def bigCand : ContextInjection :=
  { id := "c1", type := InjType.memory, summary := "alpha", content := bigContent,
    score := 5, source := "p1:c1", byteSize := byteLen bigContent }

/-- A lower-scored candidate that would fit a 50-byte budget. -/
def smallCand : ContextInjection :=
  { id := "c2", type := InjType.memory, summary := "beta", content := smallContent,
    score := 1, source := "p1:c2", byteSize := byteLen smallContent }

/-- Counterexample to C5 as stated: the second candidate fits the whole
50-byte budget (10 ≤ 50 bytes), yet after the first candidate (100 bytes)
fails the budget check the pass aborts and nothing is selected — the later,
smaller candidate is not selected. -/
theorem selectByBudget_skip_counterexample :
    smallCand.byteSize ≤ 50 ∧ selectByBudget [bigCand, smallCand] 50 10 = [] := by
  constructor
  · decide
  · decide

/-- C5 amended.  In the greedy pass, a candidate that does not fit the
remaining budget (or arrives once `top_k` is reached) terminates the whole
pass — later candidates are not considered even if they fit — while a
candidate whose normalized summary was already selected is skipped and the
pass continues with the remaining candidates; a candidate passing all
checks is selected and the pass continues. -/
theorem selectGo_admission_amended (B K : Nat) (c : ContextInjection)
    (rest sel : List ContextInjection) (used : Nat) (seen : List String)
    (hK : sel.length < K) :
    (B < used + c.byteSize →
      selectGo B K (c :: rest) sel used seen = sel.reverse) ∧
    (used + c.byteSize ≤ B → seen.contains (normalizeForDedupe c.summary) = true →
      selectGo B K (c :: rest) sel used seen = selectGo B K rest sel used seen) ∧
    (used + c.byteSize ≤ B → seen.contains (normalizeForDedupe c.summary) = false →
      selectGo B K (c :: rest) sel used seen =
        selectGo B K rest (c :: sel) (used + c.byteSize)
          (normalizeForDedupe c.summary :: seen)) := by
  refine ⟨?_, ?_, ?_⟩
  · intro h1
    rw [selectGo, if_neg (by omega), if_pos h1]
  · intro h1 h2
    rw [selectGo, if_neg (by omega), if_neg (by omega), if_pos h2]
  · intro h1 h2
    rw [selectGo, if_neg (by omega), if_neg (by omega), if_neg (by simpa using h2)]

/-- A duplicate-summary candidate that fits the budget. -/
def dupeCand : ContextInjection :=
  { id := "c3", type := InjType.memory, summary := "alpha", content := smallContent,
    score := 3, source := "p1:c3", byteSize := byteLen smallContent }

/-- Witness for the amended C5: a fitting duplicate is skipped and the
pass continues over the remaining candidates. -/
theorem selectGo_admission_amended_witness :
    selectGo 50 10 [dupeCand, smallCand] [] 0 ["alpha"] =
      selectGo 50 10 [smallCand] [] 0 ["alpha"] :=
  (selectGo_admission_amended 50 10 dupeCand [smallCand] [] 0 ["alpha"]
    (by decide)).2.1 (by decide) (by decide)

/-! ## C6: path dominance -/

/-- C6.  With a single-term task, a memory with positive path affinity to
the open files strictly outscores an otherwise identical memory (same
tags — matching the task —, same project, importance, creation time and
FTS relevance) with zero path affinity, via the dominant 10.0 multiplier. -/
theorem path_dominance_score (pid : String) (now : Nat) (open_files : List String)
    (task : String) (rA rB : SearchResult)
    (hsingle : (scoringTaskWords task).length = 1)
    (hA : 0 < pathMatchStrength rA.memory.paths (inferPathPrefixes open_files))
    (hB : pathMatchStrength rB.memory.paths (inferPathPrefixes open_files) = 0)
    (htags : rA.memory.tags = rB.memory.tags)
    (htag : 0 < taskMatchStrength rA.memory.tags task)
    (hproj : rA.memory.project_id = rB.memory.project_id)
    (himp : rA.memory.importance = rB.memory.importance)
    (hcre : rA.memory.created_at = rB.memory.created_at)
    (hfts : rA.score = rB.score) :
    (scoreMemory pid now (inferPathPrefixes open_files) task rB).score <
      (scoreMemory pid now (inferPathPrefixes open_files) task rA).score := by
  simp only [scoreMemory]
  have hcondA : (scoringTaskWords task).length = 1 ∧
      0 < pathMatchStrength rA.memory.paths (inferPathPrefixes open_files) :=
    ⟨hsingle, hA⟩
  have hcondB : ¬ ((scoringTaskWords task).length = 1 ∧
      0 < pathMatchStrength rB.memory.paths (inferPathPrefixes open_files)) := by
    rintro ⟨-, hlt⟩
    rw [hB] at hlt
    exact lt_irrefl 0 hlt
  have hhalfB : ¬ ((1 / 2 : ℚ) < pathMatchStrength rB.memory.paths
      (inferPathPrefixes open_files)) := by
    rw [hB]
    norm_num
  rw [if_pos hcondA, if_neg hcondB, if_neg hhalfB, hB, hproj, himp, hcre, hfts, htags]
  have h10 : 0 < 10 * pathMatchStrength rA.memory.paths (inferPathPrefixes open_files) := by
    linarith
  linarith

/-- Path-matched memory for the C6 witness. -/
def memA : MemoryRow :=
  { id := "a", project_id := "p1", summary := "A", text := "t", tags := ["auth"],
    paths := ["/a"], importance := 3, created_at := 0, updated_at := 0,
    ttl := none, expires_at := none, dedupe_hash := "ha" }

/-- Equally tagged memory without a path match. -/
def memB : MemoryRow :=
  { id := "b", project_id := "p1", summary := "B", text := "t", tags := ["auth"],
    paths := [], importance := 3, created_at := 0, updated_at := 0,
    ttl := none, expires_at := none, dedupe_hash := "hb" }

/-- Witness for C6: on the single-term task `"authentication"`, with the
open file `/a` under `memA`'s stored path, `memA` outscores `memB`. -/
theorem path_dominance_score_witness :
    (scoreMemory "p1" 0 (inferPathPrefixes ["/a"]) "authentication"
      { memory := memB, score := 0, snippet := none }).score <
    (scoreMemory "p1" 0 (inferPathPrefixes ["/a"]) "authentication"
      { memory := memA, score := 0, snippet := none }).score := by
  have hpre : inferPathPrefixes ["/a"] = ["/a"] := by decide
  have hA : (0 : ℚ) < pathMatchStrength memA.paths (inferPathPrefixes ["/a"]) := by
    rw [hpre]
    have h1 : pathMatchStrength memA.paths ["/a"] = 1 := rfl
    rw [h1]
    norm_num
  have hB : pathMatchStrength memB.paths (inferPathPrefixes ["/a"]) = 0 := rfl
  have htag : (0 : ℚ) < taskMatchStrength memA.tags "authentication" := by
    have h2 : taskMatchStrength memA.tags "authentication" =
        ((1 : Nat) : ℚ) / ((1 : Nat) : ℚ) := rfl
    rw [h2]
    norm_num
  exact path_dominance_score "p1" 0 ["/a"] "authentication"
    { memory := memA, score := 0, snippet := none }
    { memory := memB, score := 0, snippet := none }
    (by decide) hA hB rfl htag rfl rfl rfl rfl

/-! ## Concept Graph Store, enhanced class (`ConceptStoreEnhanced`)

The `concepts` table and the `concept_relationships` table are lists in
rowid order; `INSERT OR REPLACE` removes the conflicting row (primary key
`id`, resp. `(concept_id, related_id)`) and appends.  The generated id
(title slug plus random suffix) is an explicit parameter. -/

/-- A row of the enhanced `concepts` table. -/
structure ConceptRow where
  id : String
  title : String
  body : String
  tags : List String
  importance : Nat
  usage_count : Nat
  last_used : Option Nat
  created_at : Nat
  updated_at : Nat
  source : String
deriving DecidableEq, Repr

/-- A row of `concept_relationships`. -/
structure ConceptRel where
  concept_id : String
  related_id : String
  relationship_type : String
  strength : ℚ
deriving DecidableEq, Repr

/-- The persistent state of the enhanced store. -/
structure ConceptState where
  concepts : List ConceptRow
  rels : List ConceptRel
deriving DecidableEq, Repr

/-- Arguments of `ConceptStoreEnhanced.save`. -/
structure EnhSaveParams where
  title : String
  body : String
  tags : Option (List String)
  importance : Option Nat
  source : Option String
  relatedTo : Option (List String)
deriving DecidableEq, Repr

/-- `addRelationships`: `INSERT OR REPLACE` of one edge per related id,
always with type defaulting to `related` and the hardcoded strength `0.5`. -/
def addRelationships (rels : List ConceptRel) (conceptId : String)
    (relatedIds : List String) (relType : String) : List ConceptRel :=
  relatedIds.foldl (fun rs rid =>
    rs.filter (fun r => !(r.concept_id = conceptId && r.related_id = rid)) ++
      [{ concept_id := conceptId, related_id := rid, relationship_type := relType,
         strength := 1 / 2 }]) rels

/-- Number of tags of the saved concept appearing in the other concept's
tag list. -/
def tagOverlap (ctags otherTags : List String) : Nat :=
  (ctags.filter (fun t => otherTags.contains t)).length

/-- One iteration of the `autoDiscoverRelated` scan: when the overlap is
positive and the overlap ratio exceeds `0.3`, insert a `related` edge
(with the default strength). -/
def discoverStep (cid : String) (ctags : List String) (rs : List ConceptRel)
    (other : ConceptRow) : List ConceptRel :=
  if 0 < tagOverlap ctags other.tags then
    if (3 / 10 : ℚ) <
        (tagOverlap ctags other.tags : ℚ) / (max ctags.length other.tags.length : ℚ) then
      addRelationships rs cid [other.id] "related"
    else rs
  else rs

/-- `autoDiscoverRelated`: scan (at most) the first 20 other concepts and
apply `discoverStep` to each. -/
def autoDiscoverRelated (st : ConceptState) (c : ConceptRow) : ConceptState :=
  let others := (st.concepts.filter (fun o => o.id ≠ c.id)).take 20
  { st with rels := others.foldl (discoverStep c.id c.tags) st.rels }

/-- `ConceptStoreEnhanced.save`: build the concept (usage_count 0, no
last_used), `INSERT OR REPLACE` it, add the explicitly provided
relationships, then auto-discover related concepts. -/
def saveEnhanced (st : ConceptState) (p : EnhSaveParams) (genId : String) (now : Nat) :
    ConceptState × ConceptRow :=
  let c : ConceptRow :=
    { id := genId, title := p.title, body := p.body, tags := p.tags.getD [],
      importance := jsOr p.importance 3, usage_count := 0, last_used := none,
      created_at := now, updated_at := now, source := p.source.getD "manual" }
  let concepts1 := st.concepts.filter (fun o => o.id ≠ genId) ++ [c]
  let rels1 :=
    match p.relatedTo with
    | some ids => if ids ≠ [] then addRelationships st.rels genId ids "related" else st.rels
    | none => st.rels
  (autoDiscoverRelated { concepts := concepts1, rels := rels1 } c, c)

/-- `trackUsage`: searches increment `usage_count` and set `last_used` on
the top-ranked concept. -/
def trackUsage (st : ConceptState) (conceptId : String) (now : Nat) : ConceptState :=
  { st with concepts := st.concepts.map (fun c =>
      if c.id = conceptId then
        { c with usage_count := c.usage_count + 1, last_used := some now }
      else c) }

/-! ## C7: relationship strength -/

/-- The claim's property of an auto-discovered edge, except for the
strength value. -/
def pairPred (cid rid : String) (e : ConceptRel) : Prop :=
  e.concept_id = cid ∧ e.related_id = rid ∧ e.relationship_type = "related" ∧
  e.strength = 1 / 2

theorem addRelationships_single_pair (rels : List ConceptRel) (cid rid relType : String) :
    ∃ e ∈ addRelationships rels cid [rid] relType,
      e.concept_id = cid ∧ e.related_id = rid ∧ e.relationship_type = relType ∧
      e.strength = 1 / 2 := by
  refine ⟨⟨cid, rid, relType, 1 / 2⟩, ?_, rfl, rfl, rfl, rfl⟩
  unfold addRelationships
  simp

theorem discoverStep_preserve (cid : String) (ctags : List String) (rs : List ConceptRel)
    (o : ConceptRow) (x : String) (h : ∃ e ∈ rs, pairPred cid x e) :
    ∃ e ∈ discoverStep cid ctags rs o, pairPred cid x e := by
  unfold discoverStep
  split_ifs with h1 h2
  · by_cases hx : o.id = x
    · refine ⟨⟨cid, o.id, "related", 1 / 2⟩, ?_, rfl, hx, rfl, rfl⟩
      unfold addRelationships
      simp
    · rcases h with ⟨e, hmem, hP⟩
      refine ⟨e, ?_, hP⟩
      unfold addRelationships
      simp only [List.foldl_cons, List.foldl_nil]
      apply List.mem_append_left
      rw [List.mem_filter]
      refine ⟨hmem, ?_⟩
      have hrid : e.related_id = x := hP.2.1
      simp [hrid]
      exact Or.inr (fun hh => hx hh.symm)
  · exact h
  · exact h

theorem foldl_discoverStep_preserve (cid : String) (ctags : List String)
    (others : List ConceptRow) (rs : List ConceptRel) (x : String)
    (h : ∃ e ∈ rs, pairPred cid x e) :
    ∃ e ∈ others.foldl (discoverStep cid ctags) rs, pairPred cid x e := by
  induction others generalizing rs with
  | nil => exact h
  | cons o rest ih =>
    rw [List.foldl_cons]
    exact ih _ (discoverStep_preserve cid ctags rs o x h)

theorem foldl_discoverStep_pair (cid : String) (ctags : List String)
    (others : List ConceptRow) (rs : List ConceptRel) (other : ConceptRow)
    (hmem : other ∈ others)
    (hov : 0 < tagOverlap ctags other.tags)
    (hratio : (3 / 10 : ℚ) <
      (tagOverlap ctags other.tags : ℚ) / (max ctags.length other.tags.length : ℚ)) :
    ∃ e ∈ others.foldl (discoverStep cid ctags) rs, pairPred cid other.id e := by
  induction others generalizing rs with
  | nil => cases hmem
  | cons o rest ih =>
    rw [List.foldl_cons]
    rcases List.mem_cons.mp hmem with heq | htail
    · subst heq
      apply foldl_discoverStep_preserve
      unfold discoverStep
      rw [if_pos hov, if_pos hratio]
      exact addRelationships_single_pair rs cid other.id "related"
    · exact ih _ htail

/-- An existing concept sharing both tags with the concept about to be
saved (overlap ratio 1). -/
def xRow : ConceptRow :=
  { id := "x", title := "X", body := "bx", tags := ["a", "b"], importance := 3,
    usage_count := 0, last_used := none, created_at := 0, updated_at := 0,
    source := "manual" }

/-- Store containing only `xRow`, with no edges. -/
def st0 : ConceptState := { concepts := [xRow], rels := [] }

/-- Save parameters with the same two tags as `xRow`. -/
def pC : EnhSaveParams :=
  { title := "C", body := "bc", tags := some ["a", "b"], importance := none,
    source := none, relatedTo := none }

/-- Counterexample to C7 as stated: saving a concept whose tag overlap
ratio with the stored concept is 1 (above the 0.3 threshold) creates the
`related` edge with the hardcoded strength 0.5, not with the overlap
ratio 1: strength does not equal the ratio. -/
theorem autoDiscover_strength_counterexample :
    (saveEnhanced st0 pC "c" 5).1.rels =
      [{ concept_id := "c", related_id := "x", relationship_type := "related",
         strength := 1 / 2 }] ∧
    (tagOverlap (pC.tags.getD []) xRow.tags : ℚ) /
      (max (pC.tags.getD []).length xRow.tags.length : ℚ) = 1 ∧
    ¬ ((1 : ℚ) / 2 = 1) := by
  have hover : tagOverlap (pC.tags.getD []) xRow.tags = 2 := by decide
  have hlen1 : (pC.tags.getD []).length = 2 := by decide
  have hlen2 : xRow.tags.length = 2 := by decide
  refine ⟨?_, ?_, by norm_num⟩
  · have key : (saveEnhanced st0 pC "c" 5).1.rels =
        (if (3 / 10 : ℚ) < ((2 : Nat) : ℚ) / ((2 : Nat) : ℚ) then
          [{ concept_id := "c", related_id := "x", relationship_type := "related",
             strength := 1 / 2 }]
        else []) := rfl
    rw [key, if_pos (by norm_num)]
  · rw [hover, hlen1, hlen2]
    norm_num

/-- C7 amended.  After a save, for each of the (at most 20) scanned other
concepts whose tag overlap with the saved concept is positive and whose
overlap ratio (overlap count over the larger tag-set size) exceeds 0.3, a
`related` edge from the saved concept to that concept exists — but its
strength is the fixed default 0.5; the overlap ratio serves only as the
admission threshold and is never stored, and the strength is never
user-supplied (the save interface accepts no strength). -/
theorem autoDiscover_edges_amended (st : ConceptState) (p : EnhSaveParams)
    (genId : String) (now : Nat) (other : ConceptRow)
    (hmem : other ∈ ((saveEnhanced st p genId now).1.concepts.filter
      (fun o => o.id ≠ genId)).take 20)
    (hov : 0 < tagOverlap (p.tags.getD []) other.tags)
    (hratio : (3 / 10 : ℚ) < (tagOverlap (p.tags.getD []) other.tags : ℚ) /
      (max (p.tags.getD []).length other.tags.length : ℚ)) :
    ∃ e ∈ (saveEnhanced st p genId now).1.rels,
      e.concept_id = genId ∧ e.related_id = other.id ∧
      e.relationship_type = "related" ∧ e.strength = 1 / 2 := by
  simp only [saveEnhanced, autoDiscoverRelated] at hmem ⊢
  exact foldl_discoverStep_pair genId (p.tags.getD []) _ _ other hmem hov hratio

/-- Witness for the amended C7: in the concrete one-concept store, the
scanned concept `x` passes the threshold and receives a strength-0.5
`related` edge. -/
theorem autoDiscover_edges_amended_witness :
    ∃ e ∈ (saveEnhanced st0 pC "c" 5).1.rels,
      e.concept_id = "c" ∧ e.related_id = xRow.id ∧
      e.relationship_type = "related" ∧ e.strength = 1 / 2 :=
  autoDiscover_edges_amended st0 pC "c" 5 xRow (by decide) (by decide)
    (by
      have hover : tagOverlap (pC.tags.getD []) xRow.tags = 2 := by decide
      have hlen1 : (pC.tags.getD []).length = 2 := by decide
      have hlen2 : xRow.tags.length = 2 := by decide
      rw [hover, hlen1, hlen2]
      norm_num)

/-! ## C10: re-save resets usage statistics -/

/-- C10.  Saving the enhanced store with a generated id equal to an
already-stored concept's id replaces the row: afterwards exactly one row
carries that id, and it has `usage_count = 0` and no `last_used` — usage
statistics accumulated by `trackUsage` do not survive the re-save. -/
theorem enhanced_save_resets_usage (st : ConceptState) (p : EnhSaveParams)
    (cid : String) (now₀ now : Nat) (hmem : ∃ c ∈ st.concepts, c.id = cid) :
    ((saveEnhanced (trackUsage st cid now₀) p cid now).1.concepts.filter
      (fun c => c.id = cid)).length = 1 ∧
    (∀ c ∈ (saveEnhanced (trackUsage st cid now₀) p cid now).1.concepts,
      c.id = cid → c.usage_count = 0 ∧ c.last_used = none) := by
  constructor
  · simp only [saveEnhanced, autoDiscoverRelated, List.filter_append]
    rw [List.filter_filter]
    have h1 : ((trackUsage st cid now₀).concepts.filter
        (fun c => decide (c.id = cid) && decide (c.id ≠ cid))).length = 0 := by
      rw [List.length_eq_zero, List.filter_eq_nil_iff]
      intro c _
      by_cases hc : c.id = cid <;> simp [hc]
    simp only [List.length_append, h1]
    simp
  · intro c hc hid
    simp only [saveEnhanced, autoDiscoverRelated, List.mem_append] at hc
    rcases hc with hl | hr
    · rcases List.mem_filter.mp hl with ⟨-, hne⟩
      simp only [ne_eq, decide_not, Bool.not_eq_true', decide_eq_false_iff_not] at hne
      exact absurd hid hne
    · rcases List.mem_singleton.mp hr with rfl
      exact ⟨rfl, rfl⟩

/-- Witness for C10: a concept whose usage was tracked twice is re-saved;
the surviving row has zero usage and no last-used stamp. -/
theorem enhanced_save_resets_usage_witness :
    ((saveEnhanced (trackUsage st0 "x" 7) pC "x" 9).1.concepts.filter
      (fun c => c.id = "x")).length = 1 ∧
    (∀ c ∈ (saveEnhanced (trackUsage st0 "x" 7) pC "x" 9).1.concepts,
      c.id = "x" → c.usage_count = 0 ∧ c.last_used = none) :=
  enhanced_save_resets_usage st0 pC "x" 7 9 ⟨xRow, by decide, by decide⟩

/-! ## Concept search: enhanced store, plain store, and the dispatch wrapper -/

/-- The enhanced `Concept` interface (what `rowToConcept` returns). -/
structure EnhConcept where
  id : String
  title : String
  body : String
  tags : List String
  importance : Nat
  usage_count : Nat
  last_used : Option Nat
  created_at : Nat
  updated_at : Nat
deriving DecidableEq, Repr

/-- `ConceptStoreEnhanced.rowToConcept`. -/
def rowToConcept (r : ConceptRow) : EnhConcept :=
  { id := r.id, title := r.title, body := r.body, tags := r.tags,
    importance := r.importance, usage_count := r.usage_count,
    last_used := r.last_used, created_at := r.created_at, updated_at := r.updated_at }

/-- Search result of the enhanced store. -/
structure EnhConceptSearchResult where
  concept : EnhConcept
  score : ℚ
  snippet : String
deriving DecidableEq, Repr

/-- A row of the enhanced `project_allowlists` table. -/
structure AllowRow where
  project_id : String
  concept_id : String
  added_at : Nat
  auto_suggested : Bool
  accepted : Bool
deriving DecidableEq, Repr

/-- Parameters of `ConceptStoreEnhanced.search` (`allowlist` and
`boostRecent` are declared by the source but never read). -/
structure EnhConceptQuery where
  q : String
  k : Option Nat
  allowlist : Option (List String)
  projectId : Option String
  includeRelated : Bool
  boostRecent : Bool
deriving DecidableEq, Repr

/-- `CASE WHEN c.last_used > ? THEN 2.0 ELSE 0 END` against the cutoff
`Date.now() - 7 days` (a NULL `last_used` compares false). -/
def recentBonus (now : Nat) (lu : Option Nat) : ℚ :=
  match lu with
  | some t => if ((now : ℤ) - 7 * 24 * 60 * 60 * 1000) < (t : ℤ) then 2 else 0
  | none => 0

/-- The smart ranking value of the wildcard branch: `importance * 2.0 +
usage_count * 0.1 + 2.0` when last used within the last 7 days. -/
def smartScore (now : Nat) (c : ConceptRow) : ℚ :=
  2 * (c.importance : ℚ) + (c.usage_count : ℚ) / 10 + recentBonus now c.last_used

/-- The outgoing edges of a concept joined back to the concepts table,
strongest first, limited to 2 (`enrichWithRelated`'s inner query). -/
def relatedOf (st : ConceptState) (cid : String) : List (ConceptRow × ℚ) :=
  (((st.rels.filter (fun r => r.concept_id = cid)).filterMap (fun r =>
      (st.concepts.find? (fun c => c.id = r.related_id)).map
        (fun c => (c, r.strength)))).insertionSort
    (fun a b => b.2 ≤ a.2)).take 2

/-- `enrichWithRelated`: for the top 3 results append up to 2 related
concepts each, scored `sourceScore × strength × 0.5`, deduplicated against
ids already present, then re-sort descending. -/
def enrichWithRelated (st : ConceptState) (results : List EnhConceptSearchResult) :
    List EnhConceptSearchResult :=
  let step := fun (acc : List EnhConceptSearchResult × List String)
      (res : EnhConceptSearchResult) =>
    (relatedOf st res.concept.id).foldl (fun acc2 rel =>
      if acc2.2.contains rel.1.id then acc2
      else
        (acc2.1 ++ [{ concept := rowToConcept rel.1,
                      score := res.score * rel.2 * (1 / 2),
                      snippet := "[Related to: " ++ res.concept.title ++ "]" }],
         acc2.2 ++ [rel.1.id])) acc
  (((results.take 3).foldl step (results, results.map (fun r => r.concept.id))).1).insertionSort
    (fun a b => b.score ≤ a.score)

/-- `ConceptStoreEnhanced.search`: wildcard (or empty) queries rank all
concepts by the smart score; other queries rank FTS matches by
`-bm25 * 3.0` plus the smart score; an optional project filter restricts to
accepted allowlist entries; the top `k` are returned (a literally zero
smart score is reported as `1.0`, the JS `||` fallback) and usage is
tracked on the top result.  Returns the results and the post-tracking
state. -/
def enhSearch (ftsMatch : String → ConceptRow → Bool) (bm25 : String → ConceptRow → ℚ)
    (snip : String → ConceptRow → String) (allowTable : List AllowRow)
    (st : ConceptState) (now : Nat) (p : EnhConceptQuery) :
    List EnhConceptSearchResult × ConceptState :=
  let k := jsOr p.k 10
  let searchQuery := if p.q = "" then "*" else p.q
  let base : List (ConceptRow × ℚ × String) :=
    if searchQuery = "*" then
      st.concepts.map (fun c => (c, smartScore now c, ""))
    else
      (st.concepts.filter (fun c => ftsMatch searchQuery c)).map
        (fun c => (c, -(bm25 searchQuery c) * 3 + smartScore now c, snip searchQuery c))
  let filtered : List (ConceptRow × ℚ × String) :=
    match p.projectId with
    | some vid => base.filter (fun b => allowTable.any (fun a =>
        a.project_id = vid && a.concept_id = b.1.id && a.accepted))
    | none => base
  let sorted := filtered.insertionSort (fun a b => b.2.1 ≤ a.2.1)
  let finalResults := (sorted.take k).map (fun b =>
    { concept := rowToConcept b.1, score := if b.2.1 = 0 then 1 else b.2.1,
      snippet := b.2.2 })
  let out :=
    if p.includeRelated ∧ finalResults ≠ [] then enrichWithRelated st finalResults
    else finalResults
  (out,
    match out with
    | [] => st
    | r :: _ => trackUsage st r.concept.id now)

/-- A row of the plain store's `project_allowlists` table. -/
structure AllowRowP where
  project_id : String
  concept_id : String
  added_at : Nat
deriving DecidableEq, Repr

/-- `ConceptStore.escapeQuery`: double the double quotes. -/
def escapeQueryP (q : String) : String :=
  String.mk (q.data.flatMap (fun c => if c = '"' then ['"', '"'] else [c]))

/-- `ConceptStore.normalizeSearchQuery`. -/
def normalizeSearchQuery (q : String) : String :=
  if jsTrim q = "" then "*"
  else if jsTrim q = "*" ∨ jsTrim q = "**" then "*"
  else escapeQueryP (jsTrim q)

/-- Wildcard ordering of the plain store: importance descending, creation
time descending. -/
def ordImpCre (a b : ConceptP) : Bool :=
  if a.importance ≠ b.importance then decide (b.importance ≤ a.importance)
  else decide (b.created_at ≤ a.created_at)

/-- FTS ordering of the plain store: `fts_score` descending, importance
descending. -/
def ordFtsImp (sa sb : ℚ) (a b : ConceptP) : Bool :=
  if sa ≠ sb then decide (sb ≤ sa) else decide (b.importance ≤ a.importance)

/-- `ConceptStore.search`: wildcard/empty queries return all concepts
(filtered by project allowlist or explicit allowlist when given) ordered by
importance then creation time; other queries return FTS matches ordered by
relevance then importance; the top `k` are wrapped with `score = -fts`. -/
def plainConceptSearch (ftsMatch : String → ConceptP → Bool) (bm25 : String → ConceptP → ℚ)
    (snip : String → ConceptP → String) (allowTable : List AllowRowP)
    (concepts : List ConceptP) (p : ConceptQueryP) : List ConceptSearchResultP :=
  let k := jsOr p.k 10
  let searchQuery := normalizeSearchQuery p.q
  let isWild := searchQuery = "*" ∨ jsTrim searchQuery = ""
  let base : List (ConceptP × ℚ × String) :=
    if isWild then concepts.map (fun c => (c, 1, ""))
    else (concepts.filter (fun c => ftsMatch searchQuery c)).map
      (fun c => (c, bm25 searchQuery c, snip searchQuery c))
  let filtered : List (ConceptP × ℚ × String) :=
    match p.projectId with
    | some vid => base.filter (fun b => allowTable.any (fun a =>
        a.project_id = vid && a.concept_id = b.1.id))
    | none =>
      match p.allowlist with
      | some l => if l ≠ [] then base.filter (fun b => l.contains b.1.id) else base
      | none => base
  let sorted :=
    if searchQuery = "*" then filtered.insertionSort (fun a b => ordImpCre a.1 b.1 = true)
    else filtered.insertionSort (fun a b => ordFtsImp a.2.1 b.2.1 a.1 b.1 = true)
  (sorted.take k).map (fun b =>
    { concept := b.1, score := -b.2.1, snippet := some b.2.2 })

/-- One entry of the `concept_search` tool response (body truncated to 200
characters). -/
structure ConceptToolEntry where
  id : String
  title : String
  body : String
  tags : List String
  importance : Nat
  score : ℚ
deriving DecidableEq, Repr

/-- The structured content of the `concept_search` tool response. -/
structure ConceptToolOut where
  query : String
  count : Nat
  concepts : List ConceptToolEntry
  note : String
deriving DecidableEq, Repr

/-- The `concept_search` dispatch case of `src/index.ts`: default the query
to `*` when missing or empty, search the plain store without a project
filter, and when a non-wildcard query returns nothing re-run the search as
the wildcard ranking. -/
def conceptSearchTool (ftsMatch : String → ConceptP → Bool) (bm25 : String → ConceptP → ℚ)
    (snip : String → ConceptP → String) (allowTable : List AllowRowP)
    (concepts : List ConceptP) (qArg : Option String) (kArg : Option Nat)
    (allowlistArg : Option (List String)) : ConceptToolOut :=
  let q0 := match qArg with | some s => if s = "" then "*" else s | none => "*"
  let kv := jsOr kArg 10
  let sent := if jsTrim q0 = "" then "*" else jsTrim q0
  let first := plainConceptSearch ftsMatch bm25 snip allowTable concepts
    { q := sent, k := some kv, allowlist := allowlistArg, projectId := none }
  let final :=
    if first = [] ∧ q0 ≠ "*" then
      plainConceptSearch ftsMatch bm25 snip allowTable concepts
        { q := "*", k := some kv, allowlist := allowlistArg, projectId := none }
    else first
  { query := q0
    count := final.length
    concepts := final.map (fun r =>
      { id := r.concept.id, title := r.concept.title,
        body := String.mk (r.concept.body.data.take 200) ++ "...",
        tags := r.concept.tags, importance := r.concept.importance, score := r.score })
    note :=
      if final.length = 0 then
        "No concepts found. Concepts need to be created first with concept_save."
      else if q0 = "*" then "Showing all available global concepts"
      else "Found " ++ toString final.length ++ " concepts matching \"" ++ q0 ++ "\"" }

/-! ## C8: wildcard ranking and the zero-result fallback -/

/-- Counterexample to C8 as stated: at the store level, a non-wildcard
query that matches nothing returns an empty list even though a concept is
stored — neither store-level `search` re-runs the wildcard ranking (the
re-run lives only in the `concept_search` dispatch wrapper). -/
theorem concept_search_empty_counterexample :
    (enhSearch (fun _ _ => false) (fun _ _ => 0) (fun _ _ => "") []
      { concepts := [xRow], rels := [] } 0
      { q := "zzz", k := none, allowlist := none, projectId := none,
        includeRelated := false, boostRecent := false }).1 = [] ∧
    ({ concepts := [xRow], rels := [] } : ConceptState).concepts ≠ [] := by
  constructor
  · rfl
  · decide

theorem jsOr10_pos (o : Option Nat) : 0 < jsOr o 10 := by
  rcases o with _ | n
  · decide
  · unfold jsOr
    by_cases h : n = 0
    · simp [h]
    · simp [h]
      omega

theorem recentBonus_nonneg (now : Nat) (lu : Option Nat) : 0 ≤ recentBonus now lu := by
  rcases lu with _ | t
  · simp [recentBonus]
  · simp only [recentBonus]
    split_ifs <;> norm_num

theorem smartScore_pos (now : Nat) (c : ConceptRow) (h : 1 ≤ c.importance) :
    0 < smartScore now c := by
  unfold smartScore
  have h1 : (1 : ℚ) ≤ (c.importance : ℚ) := by exact_mod_cast h
  have h2 : (0 : ℚ) ≤ (c.usage_count : ℚ) / 10 := by positivity
  have h3 : (0 : ℚ) ≤ recentBonus now c.last_used := recentBonus_nonneg now c.last_used
  linarith

/-- Wildcard queries of the plain store with no filters return one result
per stored concept, up to `k`. -/
theorem plainConceptSearch_wildcard_length (ftsMatchP : String → ConceptP → Bool)
    (bm25P : String → ConceptP → ℚ) (snipP : String → ConceptP → String)
    (allowTableP : List AllowRowP) (concepts : List ConceptP) (k : Option Nat) :
    (plainConceptSearch ftsMatchP bm25P snipP allowTableP concepts
      { q := "*", k := k, allowlist := none, projectId := none }).length =
      min (jsOr k 10) concepts.length := by
  have hnq : normalizeSearchQuery "*" = "*" := rfl
  simp only [plainConceptSearch, hnq, eq_self_iff_true, true_or, if_true, ite_true]
  rw [List.length_map, List.length_take,
    (List.perm_insertionSort _ _).length_eq, List.length_map]

/-- C8 amended.  (1) At the enhanced store, an empty or wildcard query
returns all concepts up to `k`, each scored by the smart ranking value
combining importance and usage, in descending score order — never an
error.  (2) A non-wildcard query with zero matches returns the empty list
at the store level (see the counterexample); the automatic wildcard re-run
is implemented in the `concept_search` dispatch wrapper over the plain
store, so at the tool level, whenever at least one concept is stored and no
allowlist filter is given, the returned concept count is positive. -/
theorem concept_search_wildcard_amended
    (ftsMatch : String → ConceptRow → Bool) (bm25 : String → ConceptRow → ℚ)
    (snip : String → ConceptRow → String) (allowTable : List AllowRow)
    (st : ConceptState) (now : Nat) (q : String) (k : Option Nat)
    (ftsMatchP : String → ConceptP → Bool) (bm25P : String → ConceptP → ℚ)
    (snipP : String → ConceptP → String) (allowTableP : List AllowRowP)
    (concepts : List ConceptP) (qArg : Option String) (kArg : Option Nat)
    (hq : q = "" ∨ q = "*") (himp : ∀ c ∈ st.concepts, 1 ≤ c.importance)
    (hne : concepts ≠ []) :
    ((enhSearch ftsMatch bm25 snip allowTable st now
        { q := q, k := k, allowlist := none, projectId := none,
          includeRelated := false, boostRecent := false }).1.length =
      min (jsOr k 10) st.concepts.length ∧
     (∀ r ∈ (enhSearch ftsMatch bm25 snip allowTable st now
        { q := q, k := k, allowlist := none, projectId := none,
          includeRelated := false, boostRecent := false }).1,
       ∃ row ∈ st.concepts, r.concept = rowToConcept row ∧
         r.score = smartScore now row) ∧
     List.Pairwise (fun a b => b.score ≤ a.score)
       (enhSearch ftsMatch bm25 snip allowTable st now
        { q := q, k := k, allowlist := none, projectId := none,
          includeRelated := false, boostRecent := false }).1) ∧
    0 < (conceptSearchTool ftsMatchP bm25P snipP allowTableP concepts
      qArg kArg none).count := by
  have hq' : (if q = "" then ("*" : String) else q) = "*" := by
    rcases hq with rfl | rfl <;> simp
  have hres : (enhSearch ftsMatch bm25 snip allowTable st now
      { q := q, k := k, allowlist := none, projectId := none,
        includeRelated := false, boostRecent := false }).1 =
      (((st.concepts.map (fun c => (c, smartScore now c, ""))).insertionSort
        (fun a b => b.2.1 ≤ a.2.1)).take (jsOr k 10)).map
        (fun b : ConceptRow × ℚ × String =>
        ({ concept := rowToConcept b.1,
           score := if b.2.1 = 0 then 1 else b.2.1,
           snippet := b.2.2 } : EnhConceptSearchResult)) := by
    simp only [enhSearch, hq', eq_self_iff_true, if_true, ite_true,
      Bool.false_eq_true, false_and, if_false, ite_false]
  have hmemRow : ∀ tup ∈ ((st.concepts.map
      (fun c => (c, smartScore now c, ""))).insertionSort
        (fun a b => b.2.1 ≤ a.2.1)).take (jsOr k 10),
      ∃ row ∈ st.concepts, tup = (row, smartScore now row, "") := by
    intro tup htup
    have h1 := List.take_subset _ _ htup
    have h2 := (List.perm_insertionSort
      (fun a b : ConceptRow × ℚ × String => b.2.1 ≤ a.2.1) _).mem_iff.mp h1
    rcases List.mem_map.mp h2 with ⟨row, hrow, hEq⟩
    exact ⟨row, hrow, hEq.symm⟩
  refine ⟨⟨?_, ?_, ?_⟩, ?_⟩
  · rw [hres, List.length_map, List.length_take,
      (List.perm_insertionSort _ _).length_eq, List.length_map]
  · intro r hr
    rw [hres] at hr
    rcases List.mem_map.mp hr with ⟨tup, htup, rfl⟩
    rcases hmemRow tup htup with ⟨row, hrow, rfl⟩
    refine ⟨row, hrow, rfl, ?_⟩
    have hpos := smartScore_pos now row (himp row hrow)
    simp only
    rw [if_neg (by linarith)]
  · rw [hres, List.pairwise_map]
    letI hTot : IsTotal (ConceptRow × ℚ × String) (fun a b => b.2.1 ≤ a.2.1) :=
      ⟨fun a b => le_total b.2.1 a.2.1⟩
    letI hTrans : IsTrans (ConceptRow × ℚ × String) (fun a b => b.2.1 ≤ a.2.1) :=
      ⟨fun a b c hab hbc => le_trans hbc hab⟩
    have hsorted := List.sorted_insertionSort
      (fun a b : ConceptRow × ℚ × String => b.2.1 ≤ a.2.1)
      (st.concepts.map (fun c => (c, smartScore now c, "")))
    have htake := hsorted.sublist (List.take_sublist (jsOr k 10) _)
    refine htake.imp_of_mem ?_
    intro a b ha hb hR
    rcases hmemRow a ha with ⟨rowa, hrowa, rfl⟩
    rcases hmemRow b hb with ⟨rowb, hrowb, rfl⟩
    have hposa := smartScore_pos now rowa (himp rowa hrowa)
    have hposb := smartScore_pos now rowb (himp rowb hrowb)
    simp only
    rw [if_neg (by linarith), if_neg (by linarith)]
    exact hR
  · simp only [conceptSearchTool]
    generalize (match qArg with | some s => if s = "" then "*" else s | none => "*") = q0
    by_cases hcond : plainConceptSearch ftsMatchP bm25P snipP allowTableP concepts
        { q := if jsTrim q0 = "" then "*" else jsTrim q0, k := some (jsOr kArg 10),
          allowlist := none, projectId := none } = [] ∧ q0 ≠ "*"
    · rw [if_pos hcond, plainConceptSearch_wildcard_length]
      have h1 := jsOr10_pos (some (jsOr kArg 10))
      have h2 : concepts.length ≠ 0 := fun h => hne (List.length_eq_zero.mp h)
      exact lt_min h1 (Nat.pos_of_ne_zero h2)
    · rw [if_neg hcond]
      rcases not_and_or.mp hcond with hfir | hwild
      · exact List.length_pos.mpr hfir
      · have hq0 : q0 = "*" := not_not.mp hwild
        subst hq0
        have hsent : (if jsTrim ("*" : String) = "" then ("*" : String) else jsTrim "*") =
            "*" := by decide
        rw [hsent, plainConceptSearch_wildcard_length]
        have h1 := jsOr10_pos (some (jsOr kArg 10))
        have h2 : concepts.length ≠ 0 := fun h => hne (List.length_eq_zero.mp h)
        exact lt_min h1 (Nat.pos_of_ne_zero h2)

/-- A stored concept of the plain store for the C8 witness. -/
def cP : ConceptP :=
  { id := "k1", title := "T", body := "B", tags := [], importance := 3,
    created_at := 0, updated_at := 0 }

/-- Witness for the amended C8 at a one-concept store: the empty query
ranks the single concept by its smart score, and the tool-level search for
the unmatched query `"zzz"` still returns a positive count via the
wildcard re-run. -/
theorem concept_search_wildcard_amended_witness :
    ((enhSearch (fun _ _ => false) (fun _ _ => 0) (fun _ _ => "") []
        { concepts := [xRow], rels := [] } 0
        { q := "", k := none, allowlist := none, projectId := none,
          includeRelated := false, boostRecent := false }).1.length =
      min (jsOr none 10) ({ concepts := [xRow], rels := [] } : ConceptState).concepts.length ∧
     (∀ r ∈ (enhSearch (fun _ _ => false) (fun _ _ => 0) (fun _ _ => "") []
        { concepts := [xRow], rels := [] } 0
        { q := "", k := none, allowlist := none, projectId := none,
          includeRelated := false, boostRecent := false }).1,
       ∃ row ∈ ({ concepts := [xRow], rels := [] } : ConceptState).concepts,
         r.concept = rowToConcept row ∧ r.score = smartScore 0 row) ∧
     List.Pairwise (fun a b => b.score ≤ a.score)
       (enhSearch (fun _ _ => false) (fun _ _ => 0) (fun _ _ => "") []
        { concepts := [xRow], rels := [] } 0
        { q := "", k := none, allowlist := none, projectId := none,
          includeRelated := false, boostRecent := false }).1) ∧
    0 < (conceptSearchTool (fun _ _ => false) (fun _ _ => 0) (fun _ _ => "") [] [cP]
      (some "zzz") none none).count :=
  concept_search_wildcard_amended (fun _ _ => false) (fun _ _ => 0) (fun _ _ => "") []
    { concepts := [xRow], rels := [] } 0 "" none
    (fun _ _ => false) (fun _ _ => 0) (fun _ _ => "") [] [cP] (some "zzz") none
    (Or.inl rfl) (by decide) (by decide)

/-! ## C9: project scoping of every read -/

theorem executeSearch_scoped (ftsMatch : String → MemoryRow → Bool)
    (bm25 : String → MemoryRow → ℚ) (snip : String → MemoryRow → String)
    (db : List MemoryRow) (pid : String) (now : Nat) (p : MemQuery) :
    ∀ r ∈ executeSearch ftsMatch bm25 snip db pid now p,
      r.memory.project_id = pid := by
  intro r hr
  unfold executeSearch at hr
  split_ifs at hr with hg
  · simp at hr
  · rcases List.mem_map.mp hr with ⟨row, hrow, rfl⟩
    have h1 := List.take_subset _ _ hrow
    have h2 := (List.perm_insertionSort _ _).mem_iff.mp h1
    have h3 := (List.mem_filter.mp h2).2
    simp only [rowMatches, Bool.and_eq_true, decide_eq_true_eq] at h3
    exact h3.1.1.1.2

/-- The cascade returns the empty list or the yield of one executed
stage. -/
theorem search_eq_stage_yield (exec : MemQuery → Option (List SearchResult))
    (p : MemQuery) :
    search exec p = [] ∨ ∃ p', search exec p = yieldOf (exec p') := by
  simp only [search]
  by_cases h1 : yieldOf (exec p) ≠ []
  · right
    exact ⟨p, by rw [if_pos h1]⟩
  · rw [if_neg h1]
    by_cases h2 : (if hasSpecialChar p.q
        then yieldOf (exec { p with q := fallbackQuery p.q }) else []) ≠ []
    · right
      refine ⟨{ p with q := fallbackQuery p.q }, ?_⟩
      rw [if_pos h2]
      by_cases hsc : hasSpecialChar p.q
      · rw [if_pos hsc]
      · rw [if_neg hsc] at h2
        exact absurd rfl h2
    · rw [if_neg h2]
      by_cases h3 : (if 1 < (queryWords p.q).length
          then yieldOf (exec { p with q := orQuery (queryWords p.q) }) else []) ≠ []
      · right
        refine ⟨{ p with q := orQuery (queryWords p.q) }, ?_⟩
        rw [if_pos h3]
        by_cases hlen : 1 < (queryWords p.q).length
        · rw [if_pos hlen]
        · rw [if_neg hlen] at h3
          exact absurd rfl h3
      · rw [if_neg h3]
        rcases hw : queryWords p.q with _ | ⟨w, ws⟩
        · exact Or.inl rfl
        · exact Or.inr ⟨{ p with q := w }, rfl⟩

/-- The debug cascade's results are the empty list or the yield of one
executed stage. -/
theorem searchWithDebug_eq_stage_yield (exec : MemQuery → Option (List SearchResult))
    (p : MemQuery) :
    (searchWithDebug exec p).results = [] ∨
      ∃ p', (searchWithDebug exec p).results = yieldOf (exec p') := by
  simp only [searchWithDebug]
  by_cases h1 : yieldOf (exec p) ≠ []
  · rw [if_pos h1]
    exact Or.inr ⟨p, rfl⟩
  · rw [if_neg h1]
    by_cases h2 : (if hasSpecialChar p.q
        then yieldOf (exec { p with q := fallbackQuery p.q }) else []) ≠ []
    · rw [if_pos h2]
      refine Or.inr ⟨{ p with q := fallbackQuery p.q }, ?_⟩
      by_cases hsc : hasSpecialChar p.q
      · rw [if_pos hsc]
      · rw [if_neg hsc] at h2
        exact absurd rfl h2
    · rw [if_neg h2]
      by_cases h3 : (if 1 < (queryWords p.q).length
          then yieldOf (exec { p with q := orQuery (queryWords p.q) }) else []) ≠ []
      · rw [if_pos h3]
        refine Or.inr ⟨{ p with q := orQuery (queryWords p.q) }, ?_⟩
        by_cases hlen : 1 < (queryWords p.q).length
        · rw [if_pos hlen]
        · rw [if_neg hlen] at h3
          exact absurd rfl h3
      · rw [if_neg h3]
        rcases hw : queryWords p.q with _ | ⟨w, ws⟩
        · exact Or.inl rfl
        · dsimp only
          rcases hx : exec { p with q := w } with _ | r4
          · exact Or.inl rfl
          · exact Or.inr ⟨{ p with q := w }, by rw [hx]; rfl⟩

/-- C9.  Every record returned by any read operation of a per-project
`MemoryDatabase` instance carries that instance's project id: rows with any
other project id in the same file are never returned by `executeSearch`,
`getRecent`, `get`, `getMultiple`, `search` or `searchWithDebug`. -/
theorem reads_project_scoped (ftsMatch : String → MemoryRow → Bool)
    (bm25 : String → MemoryRow → ℚ) (snip : String → MemoryRow → String)
    (db : List MemoryRow) (pid : String) (now : Nat) (p : MemQuery)
    (k : Option Nat) (ppre : Option String) (ie : Bool) (id : String)
    (ids : List String) :
    ((executeSearch ftsMatch bm25 snip db pid now p).all
      (fun r => r.memory.project_id = pid)) = true ∧
    ((getRecent db pid now k ppre ie).all (fun m => m.project_id = pid)) = true ∧
    ((get db pid id).all (fun m => m.project_id = pid)) = true ∧
    ((getMultiple db pid ids).all
      (fun pr => pr.2.all (fun m => m.project_id = pid))) = true ∧
    ((search (fun q' => some (executeSearch ftsMatch bm25 snip db pid now q')) p).all
      (fun r => r.memory.project_id = pid)) = true ∧
    ((searchWithDebug (fun q' => some (executeSearch ftsMatch bm25 snip db pid now q'))
        p).results.all (fun r => r.memory.project_id = pid)) = true := by
  refine ⟨?_, ?_, ?_, ?_, ?_, ?_⟩
  · rw [List.all_eq_true]
    intro r hr
    simpa using executeSearch_scoped ftsMatch bm25 snip db pid now p r hr
  · rw [List.all_eq_true]
    intro m hm
    unfold getRecent at hm
    have h1 := List.take_subset _ _ hm
    have h2 := (List.perm_insertionSort _ _).mem_iff.mp h1
    have h3 := (List.mem_filter.mp h2).2
    simp only [Bool.and_eq_true, decide_eq_true_eq] at h3
    simpa using h3.1.1
  · have hget : get db pid id =
        (db.filter (fun r => r.id = id && r.project_id = pid)).head? := rfl
    rw [hget]
    rcases hh : (db.filter (fun r => r.id = id && r.project_id = pid)).head? with _ | m
    · rw [hh]
      rfl
    · rw [hh]
      have hmem := List.mem_of_mem_head? (Option.mem_def.mpr hh)
      have h3 := (List.mem_filter.mp hmem).2
      simp only [Bool.and_eq_true, decide_eq_true_eq] at h3
      simpa using h3.2
  · rw [List.all_eq_true]
    intro pr hpr
    simp only [getMultiple, List.mem_map] at hpr
    rcases hpr with ⟨i, -, rfl⟩
    simp only
    rcases hh : ((db.filter (fun r => ids.contains r.id && r.project_id = pid)).filter
        (fun r => r.id = i)).getLast? with _ | m
    · rw [hh]
      rfl
    · rw [hh]
      have hmem := List.mem_of_mem_getLast? (Option.mem_def.mpr hh)
      have h4 := (List.mem_filter.mp (List.mem_filter.mp hmem).1).2
      simp only [Bool.and_eq_true, decide_eq_true_eq] at h4
      simpa using h4.2
  · rw [List.all_eq_true]
    intro r hr
    rcases search_eq_stage_yield
        (fun q' => some (executeSearch ftsMatch bm25 snip db pid now q')) p with
      hnil | ⟨p', hp'⟩
    · rw [hnil] at hr
      cases hr
    · rw [hp'] at hr
      simpa using executeSearch_scoped ftsMatch bm25 snip db pid now p' r hr
  · rw [List.all_eq_true]
    intro r hr
    rcases searchWithDebug_eq_stage_yield
        (fun q' => some (executeSearch ftsMatch bm25 snip db pid now q')) p with
      hnil | ⟨p', hp'⟩
    · rw [hnil] at hr
      cases hr
    · rw [hp'] at hr
      simpa using executeSearch_scoped ftsMatch bm25 snip db pid now p' r hr
